import Mathlib

/-!
Verification of the Schedule Network Engine.

Shallow embedding of the project-recovery schedule engine:
`dag_engine.py` (dependency parsing, graph building, validation),
`cpm_engine.py` (CPM forward/backward passes, calendar conversion) and
`forecasting_engine.py` (delay propagation / forecasting).

Modelling conventions:

* Calendar dates are integers counting days since the numpy `datetime64`
  epoch 1970-01-01 (which was a Thursday).  All date arithmetic in the
  source goes through numpy's Mon-Fri `busday` functions, modelled below.
* Python dicts are modelled as association lists (`dlookup` / `dictSet`)
  with first-match lookup and replace-or-append assignment, which is the
  observable behaviour of `dict.__getitem__` / `__setitem__`.
* The graph object (`networkx.DiGraph`) is modelled by node and edge
  lists; `nx.topological_sort` is treated as an oracle: the functions
  take the visiting order as an argument and theorems assume the
  `IsTopoOrder` contract that the library guarantees for acyclic graphs.
* `nx.simple_cycles` is modelled by `simple_cycles`, a brute-force
  enumeration that lists every simple cycle exactly once (in the
  rotation whose head is the smallest node).
* Machine integers do not overflow here (Python ints are unbounded), so
  `Int` is used throughout.
-/

/-! ## Python dict model -/

def exceptDecEq {E A : Type} [DecidableEq E] [DecidableEq A] :
    (a b : Except E A) → Decidable (a = b)
  | .error x, .error y =>
    if h : x = y then isTrue (by rw [h]) else isFalse (by intro c; cases c; exact h rfl)
  | .error _, .ok _ => isFalse (by intro c; cases c)
  | .ok _, .error _ => isFalse (by intro c; cases c)
  | .ok x, .ok y =>
    if h : x = y then isTrue (by rw [h]) else isFalse (by intro c; cases c; exact h rfl)

instance {E A : Type} [DecidableEq E] [DecidableEq A] : DecidableEq (Except E A) :=
  exceptDecEq

/-- First-match lookup in an association list (Python `dict.get`). -/
def dlookup {K V : Type} [DecidableEq K] (k : K) : List (K × V) → Option V
  | [] => none
  | p :: rest => if p.1 = k then some p.2 else dlookup k rest

/-- Python `dict` assignment: replace the value at an existing key in
place (keys are unique in a dict, so replacing the first occurrence is
replacing the only one), otherwise append the binding at the end. -/
def dictSet {K V : Type} [DecidableEq K] : List (K × V) → K → V → List (K × V)
  | [], k, v => [(k, v)]
  | p :: rest, k, v =>
    if p.1 = k then (k, v) :: rest else p :: dictSet rest k v

/-- Python `max` of a non-empty list (the `[]` case is never reached by
the embedded code; it returns 0 so the function stays total). -/
def pyMax : List Int → Int
  | [] => 0
  | x :: xs => xs.foldl max x

/-- Python `min` of a non-empty list (same convention as `pyMax`). -/
def pyMin : List Int → Int
  | [] => 0
  | x :: xs => xs.foldl min x

/-! ## Business-day calendar (numpy `busday` functions, weekmask 1111100)

Day 0 is 1970-01-01, a Thursday, so the weekday index (Monday = 0) of
day `d` is `(d + 3) % 7` and `d` is a business day iff that index is
less than 5. -/

/-- Weekday index of a day number, Monday = 0 ... Sunday = 6. -/
def dayOfWeek (d : Int) : Int := (d + 3) % 7

/-- Mon-Fri business day test (`np.is_busday` with weekmask 1111100). -/
def isBusday (d : Int) : Prop := dayOfWeek d < 5

instance (d : Int) : Decidable (isBusday d) :=
  inferInstanceAs (Decidable (dayOfWeek d < 5))

/-- Roll a date forward to the next business day if it falls on a
weekend (`np.busday_offset` with `roll='forward'` and offset 0). -/
def rollForward (d : Int) : Int :=
  if dayOfWeek d = 5 then d + 2 else if dayOfWeek d = 6 then d + 1 else d

/-- Roll a date backward to the previous business day if it falls on a
weekend (`roll='backward'`, used for negative offsets). -/
def rollBackward (d : Int) : Int :=
  if dayOfWeek d = 5 then d - 1 else if dayOfWeek d = 6 then d - 2 else d

/-- Next business day strictly after a business day `d`. -/
def nextBusday (d : Int) : Int := rollForward (d + 1)

/-- Previous business day strictly before a business day `d`. -/
def prevBusday (d : Int) : Int := rollBackward (d - 1)

/-- Step `n` business days forward from a (rolled) date. -/
def addBusNat (d : Int) : Nat → Int
  | 0 => d
  | n + 1 => nextBusday (addBusNat d n)

/-- Step `n` business days backward from a (rolled) date. -/
def subBusNat (d : Int) : Nat → Int
  | 0 => d
  | n + 1 => prevBusday (subBusNat d n)

/-- Signed business-day offset from a date that is already a business
day. -/
def addBus (d : Int) : Int → Int
  | Int.ofNat n => addBusNat d n
  | Int.negSucc n => subBusNat d (n + 1)

/-- `np.busday_offset(date, n, roll='forward', weekmask='1111100')`:
the date is first rolled forward to a business day, then moved by `n`
business days. -/
def busday_offset_np (date : Int) (n : Int) : Int := addBus (rollForward date) n

/-- Number of business days in the half-open interval `[s, e)` for
`s ≤ e` (helper for `busday_count`). -/
def busdayCountNat (s : Int) (n : Nat) : Int :=
  ((List.range n).filter (fun i => decide (isBusday (s + i)))).length

/-- `np.busday_count(s, e)`: business days in `[s, e)`, negated when
`e < s` (numpy counts the reversed interval negatively). -/
def busday_count (s e : Int) : Int :=
  if s ≤ e then busdayCountNat s (e - s).toNat
  else -(busdayCountNat e (s - e).toNat)

/-! ## forecasting_engine.count_working_days / calculate_delay_metric_days

Dates flow through the engine as optional values: `None`/`NaT` make the
helpers return 0. -/

/-- `count_working_days(start, end, inclusive)` from
`forecasting_engine.py`: business days between two dates, adding one
when `inclusive` and the end date itself is a working day.  Missing
dates yield 0. -/
def count_working_days (start : Option Int) (e : Option Int)
    (inclusive : Bool) : Int :=
  match start, e with
  | some s, some en =>
    let count := busday_count s en
    if inclusive then
      if decide (isBusday en) then count + 1 else count
    else count
  | _, _ => 0

/-- `calculate_delay_metric_days(target, baseline)` from
`forecasting_engine.py`: signed business-day delta, positive when the
target is later.  Missing dates yield 0. -/
def calculate_delay_metric_days (target baseline : Option Int) : Int :=
  match target, baseline with
  | some t, some b =>
    if b ≤ t then busday_count b t else -(busday_count t b)
  | _, _ => 0

/-! ## Directed graph model (networkx.DiGraph) -/

/-- Precedence type of a dependency edge. -/
inductive DepType : Type
  | FS | SS | FF | SF
deriving DecidableEq, Repr

/-- A directed edge `src -> dst` carrying the precedence `{type, lag}`
attributes. -/
structure DepEdge : Type where
  src : Int
  dst : Int
  typ : DepType
  lag : Int
deriving DecidableEq, Repr

/-- The directed graph: node list plus attribute-carrying edge list. -/
structure DiGraph : Type where
  nodes : List Int
  edges : List DepEdge
deriving DecidableEq, Repr

/-- Edges into `n` (`G.predecessors(n)` together with `G[pred][n]`). -/
def predEdges (G : DiGraph) (n : Int) : List DepEdge :=
  G.edges.filter (fun e => decide (e.dst = n))

/-- Edges out of `n` (`G.successors(n)` together with `G[n][succ]`). -/
def succEdges (G : DiGraph) (n : Int) : List DepEdge :=
  G.edges.filter (fun e => decide (e.src = n))

/-- Every edge endpoint is a registered node (networkx guarantees this:
`add_edge` inserts missing endpoints). -/
def Wellformed (G : DiGraph) : Prop :=
  ∀ e ∈ G.edges, e.src ∈ G.nodes ∧ e.dst ∈ G.nodes

instance (G : DiGraph) : Decidable (Wellformed G) :=
  inferInstanceAs (Decidable (∀ e ∈ G.edges, e.src ∈ G.nodes ∧ e.dst ∈ G.nodes))

/-- Decidable edge test. -/
def isEdgeOf (G : DiGraph) (a b : Int) : Bool :=
  G.edges.any (fun e => decide (e.src = a) && decide (e.dst = b))

/-- The edge relation of the graph, as a proposition. -/
def EdgeP (G : DiGraph) (a b : Int) : Prop := isEdgeOf G a b = true

instance (G : DiGraph) (a b : Int) : Decidable (EdgeP G a b) :=
  inferInstanceAs (Decidable (isEdgeOf G a b = true))

/-- Consecutive elements of the list are joined by edges (an
executable `List.Chain'` for the edge relation). -/
def chainB (G : DiGraph) : List Int → Bool
  | a :: b :: rest => isEdgeOf G a b && chainB G (b :: rest)
  | _ => true

/-- `l` lists the nodes of a cycle: it is non-empty and consecutive
elements (wrapping around from the last to the first) are joined by
edges. -/
def IsCycleList (G : DiGraph) (l : List Int) : Prop :=
  l ≠ [] ∧ chainB G (l ++ l.take 1) = true

instance (G : DiGraph) (l : List Int) : Decidable (IsCycleList G l) :=
  inferInstanceAs (Decidable (l ≠ [] ∧ chainB G (l ++ l.take 1) = true))

/-- A simple cycle: distinct nodes, cyclically joined by edges. -/
def IsSimpleCycle (G : DiGraph) (l : List Int) : Prop :=
  IsCycleList G l ∧ l.Nodup

/-- Canonical-rotation test: the head is the smallest node of the list
(for a duplicate-free cycle exactly one rotation satisfies this). -/
def minHeadB : List Int → Bool
  | [] => false
  | x :: xs => decide (∀ y ∈ xs, x ≤ y)

/-- Model of `nx.simple_cycles`: every simple cycle of the graph,
each listed exactly once, in its minimum-first rotation. -/
def simple_cycles (G : DiGraph) : List (List Int) :=
  (G.nodes.sublists.flatMap List.permutations').filter
    (fun l => decide (IsCycleList G l) && decide l.Nodup && minHeadB l)

/-- Model of `nx.is_directed_acyclic_graph G = False`: the graph has a
simple cycle. -/
def hasCycleB (G : DiGraph) : Bool := !(simple_cycles G).isEmpty

/-- A graph is cyclic when some node reaches itself through at least
one edge. -/
def HasCycle (G : DiGraph) : Prop := ∃ n, Relation.TransGen (EdgeP G) n n

/-- Topological-order contract of `nx.topological_sort`: the order
lists exactly the nodes, without repetition, and the source of every
edge appears strictly before its destination. -/
def IsTopoOrder (G : DiGraph) (order : List Int) : Prop :=
  order.Nodup ∧ (∀ n ∈ order, n ∈ G.nodes) ∧ (∀ n ∈ G.nodes, n ∈ order) ∧
    ∀ e ∈ G.edges, e.src ∈ order.take (order.indexOf e.dst)

instance (G : DiGraph) (order : List Int) : Decidable (IsTopoOrder G order) :=
  inferInstanceAs (Decidable (_ ∧ _ ∧ _ ∧ ∀ e ∈ G.edges, e.src ∈ order.take (order.indexOf e.dst)))

/-! ## cpm_engine.run_cpm -/

/-- Per-activity CPM record (`run_cpm` result entry, later enriched by
`convert_offsets_to_dates` with calendar dates and the resolved
duration). -/
structure CpmRec : Type where
  ES : Int
  EF : Int
  LS : Int
  LF : Int
  total_float_days : Int
  on_critical_path : Bool
  ES_date : Option Int := none
  EF_date : Option Int := none
  LS_date : Option Int := none
  LF_date : Option Int := none
  planned_duration : Option Int := none
deriving DecidableEq, Repr

/-- `x = 0; if constraints: x = max(constraints)`. -/
def maxOrZero (cs : List Int) : Int :=
  match cs with
  | [] => 0
  | _ => pyMax cs

/-- `x = default; if constraints: x = min(constraints)`. -/
def minOrDefault (d : Int) (cs : List Int) : Int :=
  match cs with
  | [] => d
  | _ => pyMin cs

/-- Forward-pass constraint contributed by one incoming edge, as in the
forward loop of `run_cpm` (`duration` is the duration of the successor
node being placed). -/
def fwdConstraint (es ef : Int → Int) (duration : Int) (e : DepEdge) : Int :=
  match e.typ with
  | .FS => ef e.src + e.lag
  | .SS => es e.src + e.lag
  | .FF => ef e.src + e.lag - duration
  | .SF => es e.src + e.lag - duration

/-- One forward-pass iteration: compute `ES`/`EF` of `node` from the
constraints of its incoming edges (0 when there are none). -/
def forwardStep (durations : Int → Int) (G : DiGraph)
    (st : (Int → Int) × (Int → Int)) (node : Int) : (Int → Int) × (Int → Int) :=
  let es := st.1
  let ef := st.2
  let duration := durations node
  let node_es := maxOrZero ((predEdges G node).map (fwdConstraint es ef duration))
  (Function.update es node node_es, Function.update ef node (node_es + duration))

/-- The forward pass: visit the topological order, starting from the
all-zero maps (`es = ef = {n: 0 for n in G.nodes}`). -/
def forwardPass (durations : Int → Int) (G : DiGraph) (order : List Int) :
    (Int → Int) × (Int → Int) :=
  order.foldl (forwardStep durations G) (fun _ => 0, fun _ => 0)

/-- Backward-pass constraint contributed by one outgoing edge (the
`lf_constraints` loop of `run_cpm`; `duration` is the duration of the
node whose `LF` is being computed). -/
def bwdConstraint (ls lf : Int → Int) (duration : Int) (e : DepEdge) : Int :=
  match e.typ with
  | .FS => ls e.dst - e.lag
  | .SS => ls e.dst - e.lag + duration
  | .FF => lf e.dst - e.lag
  | .SF => lf e.dst - e.lag + duration

/-- One backward-pass iteration: `LF` of `node` is the project finish
when it has no successors, else the minimum outgoing-edge constraint;
`LS = LF - duration`.  (The first constraint loop in the source
computes a list that is discarded; only the `lf_constraints` loop,
modelled here, feeds the result.) -/
def backwardStep (durations : Int → Int) (G : DiGraph) (project_finish : Int)
    (st : (Int → Int) × (Int → Int)) (node : Int) : (Int → Int) × (Int → Int) :=
  let ls := st.1
  let lf := st.2
  let duration := durations node
  let node_lf := minOrDefault project_finish
    ((succEdges G node).map (bwdConstraint ls lf duration))
  (Function.update ls node (node_lf - duration), Function.update lf node node_lf)

/-- The backward pass: visit the reversed topological order, starting
from the all-`project_finish` maps. -/
def backwardPass (durations : Int → Int) (G : DiGraph) (order : List Int)
    (project_finish : Int) : (Int → Int) × (Int → Int) :=
  order.reverse.foldl (backwardStep durations G project_finish)
    (fun _ => project_finish, fun _ => project_finish)

/-- Assemble the per-node result record.  The source computes
`is_critical = abs(total_float) < 0.0001 or total_float < 0`; the float
is an integer, so `abs(total_float) < 0.0001` is exactly
`total_float = 0`. -/
def cpmRecordOf (es ef ls lf : Int → Int) (n : Int) : CpmRec :=
  let total_float := ls n - es n
  { ES := es n, EF := ef n, LS := ls n, LF := lf n
    total_float_days := total_float
    on_critical_path := decide (total_float = 0) || decide (total_float < 0) }

/-- `run_cpm(df, G)` from `cpm_engine.py`, with the duration map
(`calculate_durations(df)`, defaulting to 0 for absent activities)
abstracted as a function and the order produced by
`nx.topological_sort` passed explicitly.  Raising `ValueError` is
modelled as `Except.error` with the message text. -/
def run_cpm (durations : Int → Int) (G : DiGraph) (topo_order : List Int) :
    Except String (List (Int × CpmRec)) :=
  if hasCycleB G then
    .error "Graph contains cycles. CPM cannot be calculated."
  else
    let fw := forwardPass durations G topo_order
    if G.nodes.isEmpty then .ok []
    else
      let project_finish := pyMax (G.nodes.map fw.2)
      let bw := backwardPass durations G topo_order project_finish
      .ok (G.nodes.map (fun n => (n, cpmRecordOf fw.1 fw.2 bw.1 bw.2 n)))

/-- `ES` of an activity as recorded in a result map (0 outside the map;
only used at keys that are present). -/
def resES (res : List (Int × CpmRec)) (n : Int) : Int :=
  match dlookup n res with
  | some r => r.ES
  | none => 0

/-- `EF` of an activity as recorded in a result map. -/
def resEF (res : List (Int × CpmRec)) (n : Int) : Int :=
  match dlookup n res with
  | some r => r.EF
  | none => 0

/-- `LS` of an activity as recorded in a result map. -/
def resLS (res : List (Int × CpmRec)) (n : Int) : Int :=
  match dlookup n res with
  | some r => r.LS
  | none => 0

/-- `LF` of an activity as recorded in a result map. -/
def resLF (res : List (Int × CpmRec)) (n : Int) : Int :=
  match dlookup n res with
  | some r => r.LF
  | none => 0

/-! ## cpm_engine.convert_offsets_to_dates -/

/-- Body of the enrichment loop of `convert_offsets_to_dates` for one
activity record: the four calendar dates (inclusive last working day
for a positive duration, the raw offset for a zero-duration milestone)
plus the resolved `planned_duration`. -/
def enrichRec (p_start : Int) (dur : Int) (data : CpmRec) : CpmRec :=
  { data with
    ES_date := some (busday_offset_np p_start data.ES)
    EF_date := some (if 0 < dur then busday_offset_np p_start (data.EF - 1)
                     else busday_offset_np p_start data.EF)
    LS_date := some (busday_offset_np p_start data.LS)
    LF_date := some (if 0 < dur then busday_offset_np p_start (data.LF - 1)
                     else busday_offset_np p_start data.LF)
    planned_duration := some dur }

/-- `convert_offsets_to_dates(cpm_results, project_start_date,
durations)`, value level: anchor rolled forward to a business day, each
record enriched with calendar dates. -/
def convert_offsets_to_dates (cpm_results : List (Int × CpmRec))
    (project_start_date : Int) (durations : Int → Int) :
    List (Int × CpmRec) :=
  let p_start := busday_offset_np project_start_date 0
  cpm_results.map (fun p => (p.1, enrichRec p_start (durations p.1) p.2))

/-- `convert_offsets_to_dates`, reference level.  A Python dict of
dicts is a top-level map from activity id to a *reference* to a record;
`enriched_results = cpm_results.copy()` is a shallow copy (same
references), and the loop assigns into each referenced record in place.
The function returns the shallow copy together with the updated heap;
the caller's input map holds the same references into the same heap. -/
def convertHeapStep (p_start : Int) (durations : Int → Int)
    (h : List (Nat × CpmRec)) (p : Int × Nat) : List (Nat × CpmRec) :=
  match dlookup p.2 h with
  | some data => dictSet h p.2 (enrichRec p_start (durations p.1) data)
  | none => h

def convert_offsets_to_dates_heap (top : List (Int × Nat))
    (heap : List (Nat × CpmRec)) (project_start_date : Int)
    (durations : Int → Int) : List (Int × Nat) × List (Nat × CpmRec) :=
  let p_start := busday_offset_np project_start_date 0
  (top, top.foldl (convertHeapStep p_start durations) heap)

/-! ## forecasting_engine.calculate_forecasts -/

/-- One row of the activity table as consumed by `calculate_forecasts`
(the `df_lookup` entries): missing columns and `NaN` cells are `none`. -/
structure ForecastRow : Type where
  actual_start : Option Int := none
  actual_finish : Option Int := none
  baseline_1_start : Option Int := none
  baseline_1_finish : Option Int := none
  ES_date : Option Int := none
  EF_date : Option Int := none
  planned_duration : Option Int := none
deriving DecidableEq, Repr

/-- Per-activity forecast result record. -/
structure ForecastRes : Type where
  percent_complete : Int
  actual_duration : Int
  baseline_1_duration : Int
  remaining_duration_days : Int
  forecast_start_date : Option Int
  forecast_finish_date : Option Int
  delay_carried_in : Int
  total_schedule_delay : Int
  task_created_delay : Int
  delay_absorbed : Int
deriving DecidableEq, Repr

/-- The all-default result given to a node with no matching row. -/
def defaultForecastRes : ForecastRes :=
  { percent_complete := 0
    actual_duration := 0
    baseline_1_duration := 0
    remaining_duration_days := 0
    forecast_start_date := none
    forecast_finish_date := none
    delay_carried_in := 0
    total_schedule_delay := 0
    task_created_delay := 0
    delay_absorbed := 0 }

/-- The carried-in delay contributions of a node's predecessors: one
signed delta per predecessor that has an already-computed result with a
forecast finish and a row with a baseline finish (the source skips all
others). -/
def carriedDelays (df_lookup : Int → Option ForecastRow)
    (results : List (Int × ForecastRes)) (preds : List Int) : List Int :=
  preds.filterMap (fun pred =>
    match dlookup pred results, df_lookup pred with
    | some pred_res, some p_row =>
      match pred_res.forecast_finish_date, p_row.baseline_1_finish with
      | some p_forecast_fin, some p_base_fin =>
        some (calculate_delay_metric_days (some p_forecast_fin) (some p_base_fin))
      | _, _ => none
    | _, _ => none)

/-- The per-node body of `calculate_forecasts`: percent complete,
durations, forecast dates (finished / in-progress / not-started cases),
carried-in delay from predecessor results, total schedule delay, and
the created/absorbed decomposition. -/
def calcNodeRes (G : DiGraph) (df_lookup : Int → Option ForecastRow)
    (results : List (Int × ForecastRes)) (node : Int) : ForecastRes :=
  match df_lookup node with
  | none => defaultForecastRes
  | some row =>
    let act_start := row.actual_start
    let act_fin := row.actual_finish
    let plan_dur := row.planned_duration.getD 0
    let cpm_es := row.ES_date
    let cpm_ef := row.EF_date
    let bl_start := row.baseline_1_start
    let bl_fin := row.baseline_1_finish
    let baseline_1_duration :=
      match bl_start, bl_fin with
      | some bs, some bf => count_working_days (some bs) (some bf) true
      | _, _ => 0
    -- state machine: finished / in progress / not started
    let stateFields : Int × Int × Int × Option Int × Option Int × Option Int × Option Int :=
      match act_fin with
      | some fin =>
        (100, count_working_days act_start (some fin) true, 0,
         act_start, some fin, act_start, some fin)
      | none =>
        match act_start with
        | some s =>
          let forecast_finish :=
            if 0 < plan_dur then some (busday_offset_np s (plan_dur - 1))
            else some s
          (0, 0, plan_dur, some s, forecast_finish, some s, forecast_finish)
        | none =>
          (0, 0, plan_dur, cpm_es, cpm_ef, cpm_es, cpm_ef)
    let percent_complete := stateFields.1
    let actual_duration := stateFields.2.1
    let remaining := stateFields.2.2.1
    let forecast_start := stateFields.2.2.2.1
    let forecast_finish := stateFields.2.2.2.2.1
    let forecast_start_for_delay := stateFields.2.2.2.2.2.1
    let forecast_fin_for_delay := stateFields.2.2.2.2.2.2
    let preds := (predEdges G node).map (fun e => e.src)
    let delay_carried_in :=
      max 0 (pyMax (0 :: carriedDelays df_lookup results preds))
    let start_var :=
      match bl_start, forecast_start_for_delay with
      | some bs, some fs => calculate_delay_metric_days (some fs) (some bs)
      | _, _ => 0
    let fin_var :=
      match bl_fin, forecast_fin_for_delay with
      | some bf, some ff => calculate_delay_metric_days (some ff) (some bf)
      | _, _ => 0
    let total_schedule_delay := max start_var fin_var
    let task_created_delay := max 0 (total_schedule_delay - delay_carried_in)
    let delay_absorbed := delay_carried_in - task_created_delay
    { percent_complete := percent_complete
      actual_duration := actual_duration
      baseline_1_duration := baseline_1_duration
      remaining_duration_days := remaining
      forecast_start_date := forecast_start
      forecast_finish_date := forecast_finish
      delay_carried_in := delay_carried_in
      total_schedule_delay := total_schedule_delay
      task_created_delay := task_created_delay
      delay_absorbed := delay_absorbed }

/-- `calculate_forecasts(df, G)` from `forecasting_engine.py`.  The
dataframe-to-dict preprocessing (`df_lookup`) is abstracted as a lookup
function; `ordered_nodes` (topological order when the graph is acyclic,
`list(G.nodes)` otherwise) is passed explicitly. -/
def calculate_forecasts (df_lookup : Int → Option ForecastRow) (G : DiGraph)
    (ordered_nodes : List Int) : List (Int × ForecastRes) :=
  ordered_nodes.foldl
    (fun results node => dictSet results node (calcNodeRes G df_lookup results node))
    []

/-! ## dag_engine: dependency parsing and graph building -/

/-- A parsed dependency token (`parse_dependency_string` output entry). -/
structure ParsedDep : Type where
  predecessor_id : Int
  typ : DepType
  lag : Int
deriving DecidableEq, Repr

/-- Python exception kinds relevant to the builder. -/
inductive PyErr : Type
  | valueError | typeError
deriving DecidableEq, Repr

/-- An `activity_id` cell of the dataframe: an int, a string, `None`,
or a float `NaN` (what pandas stores for a missing value). -/
inductive PyVal : Type
  | intv (n : Int) | strv (s : String) | nonev | nanv
deriving DecidableEq, Repr

/-- `str.strip()` on a character list (ASCII whitespace). -/
def stripChars (cs : List Char) : List Char :=
  ((cs.dropWhile Char.isWhitespace).reverse.dropWhile Char.isWhitespace).reverse

/-- `str.strip()` (kernel-reducible reimplementation of `String.trim`). -/
def pyStrip (s : String) : String := String.mk (stripChars s.toList)

/-- Split a character list on `;` (keeping empty segments, as Python
`str.split(';')` does). -/
def splitSemiAux : List Char → List Char → List (List Char)
  | [], acc => [acc.reverse]
  | c :: rest, acc =>
    if c = ';' then acc.reverse :: splitSemiAux rest []
    else splitSemiAux rest (c :: acc)

/-- `dep_str.split(';')`. -/
def pySplitSemi (s : String) : List String :=
  (splitSemiAux s.toList []).map String.mk

/-- Numeric value of a non-empty digit string. -/
def digitsToNat (ds : List Char) : Nat :=
  ds.foldl (fun a c => a * 10 + (c.toNat - 48)) 0

/-- Python `int(str)`: strips whitespace, accepts an optional sign
followed by digits. -/
def parseIntLiteral (s : String) : Option Int :=
  match stripChars s.toList with
  | [] => none
  | c :: rest =>
    if c = '+' then
      if rest ≠ [] ∧ rest.all Char.isDigit then some (digitsToNat rest) else none
    else if c = '-' then
      if rest ≠ [] ∧ rest.all Char.isDigit then some (-(digitsToNat rest : Int)) else none
    else
      if (c :: rest).all Char.isDigit then some (digitsToNat (c :: rest)) else none

/-- Python `int()` on a cell: `ValueError` for a non-numeric string or
`NaN`, `TypeError` for `None`. -/
def pyInt : PyVal → Except PyErr Int
  | .intv n => .ok n
  | .strv s => match parseIntLiteral s with
    | some n => .ok n
    | none => .error .valueError
  | .nonev => .error .typeError
  | .nanv => .error .valueError

/-- The two type letters of a dependency token. -/
def depTypeOf (c1 c2 : Char) : Option DepType :=
  if c1 = 'F' then
    if c2 = 'S' then some .FS else if c2 = 'F' then some .FF else none
  else if c1 = 'S' then
    if c2 = 'S' then some .SS else if c2 = 'F' then some .SF else none
  else none

/-- The optional lag group `[+-]?\d+d` (must consume the whole rest of
the token). -/
def parseLag (cs : List Char) : Option Int :=
  let signed : Int × List Char :=
    match cs with
    | c :: r => if c = '+' then (1, r) else if c = '-' then (-1, r) else (1, cs)
    | [] => (1, cs)
  let ds := signed.2.takeWhile Char.isDigit
  let rest := signed.2.dropWhile Char.isDigit
  if ds.isEmpty then none
  else match rest with
    | [c] => if c = 'd' then some (signed.1 * digitsToNat ds) else none
    | _ => none

/-- `DEPENDENCY_REGEX`: `^(\d+)(FS|SS|FF|SF)([+-]?\d+d)?$`. -/
def matchDepToken (part : String) : Option ParsedDep :=
  let cs := part.toList
  let ds := cs.takeWhile Char.isDigit
  let rest := cs.dropWhile Char.isDigit
  if ds.isEmpty then none
  else match rest with
    | t1 :: t2 :: rest2 =>
      match depTypeOf t1 t2 with
      | none => none
      | some ty =>
        match rest2 with
        | [] => some ⟨digitsToNat ds, ty, 0⟩
        | _ => match parseLag rest2 with
          | some lag => some ⟨digitsToNat ds, ty, lag⟩
          | none => none
    | _ => none

/-- A single-quote character (written by code point to keep message
strings byte-exact with the source). -/
def pyQuote : String := String.singleton (Char.ofNat 39)

/-- Error-or-token parse of the trimmed, non-empty segments. -/
def parseParts : List String → Except String (List ParsedDep)
  | [] => .ok []
  | p :: rest =>
    match matchDepToken p with
    | none => .error ("Malformed dependency: " ++ pyQuote ++ p ++ pyQuote)
    | some d =>
      match parseParts rest with
      | .ok ds => .ok (d :: ds)
      | .error e => .error e

/-- `parse_dependency_string(dep_str)` from `dag_engine.py`: blank
input yields the empty list; otherwise split on `;`, trim, drop empty
segments, and fail on the first segment that does not fully match the
grammar (`raise ValueError` modelled as `Except.error` with the message
text). -/
def parse_dependency_string (dep_str : String) : Except String (List ParsedDep) :=
  if pyStrip dep_str = "" then .ok []
  else parseParts (((pySplitSemi dep_str).map pyStrip).filter (fun p => p ≠ ""))

/-- Keys of the validation-status dict: an activity id, or the literal
`"UNKNOWN"` key used for rows whose id fails to parse in the second
pass. -/
inductive StatusKey : Type
  | id (n : Int) | unknown
deriving DecidableEq, Repr

/-- One row of the activity table as consumed by the builder: the raw
`activity_id` cell and the raw predecessor string (`none` models a
missing / `NaN` cell; the `activity_name` label attribute plays no role
in validation and is omitted). -/
structure ActivityRow : Type where
  activity_id : PyVal
  predecessor_id : Option String := none
deriving DecidableEq, Repr

/-- `G.add_node(n)` (insertion order preserved, duplicates ignored). -/
def addNode (G : DiGraph) (n : Int) : DiGraph :=
  if n ∈ G.nodes then G else ⟨G.nodes ++ [n], G.edges⟩

/-- Attribute update step of `add_edge`: replace an existing
`src -> dst` edge's attributes, or append the new edge. -/
def edgeUpd (G1 : DiGraph) (src dst : Int) (ty : DepType) (lag : Int) : DiGraph :=
  if G1.edges.any (fun e => decide (e.src = src) && decide (e.dst = dst)) then
    ⟨G1.nodes, G1.edges.map (fun e =>
      if e.src = src ∧ e.dst = dst then ⟨src, dst, ty, lag⟩ else e)⟩
  else ⟨G1.nodes, G1.edges ++ [⟨src, dst, ty, lag⟩]⟩

/-- `G.add_edge(src, dst, type=ty, lag=lag)`: missing endpoints are
inserted and an existing `src -> dst` edge has its attributes replaced. -/
def addEdge (G : DiGraph) (src dst : Int) (ty : DepType) (lag : Int) : DiGraph :=
  edgeUpd (addNode (addNode G src) dst) src dst ty lag

/-- First pass of `build_dag_and_validate`: register every activity
whose id parses as an int (both `ValueError` and `TypeError` are caught
here). -/
def pass1 (rows : List ActivityRow) : DiGraph :=
  rows.foldl (fun G row =>
    match pyInt row.activity_id with
    | .ok n => addNode G n
    | .error _ => G) ⟨[], []⟩

/-- Token loop of the second pass: stop at a self-dependency or missing
predecessor (edges added before the break are kept), otherwise add the
edge and continue.  Returns the final status and graph. -/
def processDeps (act_id : Int) (valid_ids : List Int) (G : DiGraph) :
    List ParsedDep → String × DiGraph
  | [] => ("OK", G)
  | dep :: rest =>
    if dep.predecessor_id = act_id then
      ("ERROR: Self-dependency on " ++ toString dep.predecessor_id, G)
    else if dep.predecessor_id ∈ valid_ids then
      processDeps act_id valid_ids (addEdge G dep.predecessor_id act_id dep.typ dep.lag) rest
    else
      ("ERROR: Missing predecessor ID " ++ toString dep.predecessor_id, G)

/-- One row of the second pass.  An id whose `int()` raises
`ValueError` is recorded under the `"UNKNOWN"` key; the bare
`except ValueError` does **not** catch `TypeError`, which therefore
propagates out of the function. -/
def pass2Row (valid_ids : List Int) (st : DiGraph × List (StatusKey × String))
    (row : ActivityRow) : Except PyErr (DiGraph × List (StatusKey × String)) :=
  match pyInt row.activity_id with
  | .error .valueError => .ok (st.1, dictSet st.2 .unknown "ERROR: Invalid Activity ID")
  | .error .typeError => .error .typeError
  | .ok act_id =>
    match row.predecessor_id with
    | none => .ok (st.1, dictSet st.2 (.id act_id) "OK")
    | some ps =>
      if pyStrip ps = "" then .ok (st.1, dictSet st.2 (.id act_id) "OK")
      else
        match parse_dependency_string ps with
        | .error e => .ok (st.1, dictSet st.2 (.id act_id) ("ERROR: " ++ e))
        | .ok deps =>
          let sg := processDeps act_id valid_ids st.1 deps
          .ok (sg.2, dictSet st.2 (.id act_id) sg.1)

/-- Marking one node of a cycle: an `"OK"` status is replaced by the
cycle status carrying the rendered path; a non-`"OK"` status gets the
bare `"; Cycle detected"` appended. -/
def cycleMark (cycle_str : String) (st : List (StatusKey × String))
    (node : Int) : List (StatusKey × String) :=
  if (dlookup (StatusKey.id node) st).getD "OK" = "OK" then
    dictSet st (.id node) ("ERROR: Cycle detected (" ++ cycle_str ++ ")")
  else
    dictSet st (.id node)
      ((dlookup (StatusKey.id node) st).getD "OK" ++ "; Cycle detected")

/-- Third pass body: mark every node of one enumerated simple cycle. -/
def applyCycle (statuses : List (StatusKey × String)) (cycle : List Int) :
    List (StatusKey × String) :=
  cycle.foldl (cycleMark (String.intercalate "->" (cycle.map toString))) statuses

/-- `build_dag_and_validate(df)` from `dag_engine.py`: node pass, edge
and status pass (which may raise), then the cycle pass. -/
def build_dag_and_validate (rows : List ActivityRow) :
    Except PyErr (DiGraph × List (StatusKey × String)) :=
  match rows.foldlM (pass2Row (pass1 rows).nodes) (pass1 rows, []) with
  | .error e => .error e
  | .ok sg =>
    .ok (sg.1, (simple_cycles sg.1).foldl applyCycle sg.2)

/-! ## Concrete fixtures used by witnesses and counterexamples -/

/-- Durations for the two-activity SS example: A = 1 and B = 2, both
5 days. -/
def dursAB : Int → Int := fun n => if n = 1 then 5 else if n = 2 then 5 else 0

/-- A (id 1) -> B (id 2) via SS+2d. -/
def GSS : DiGraph := ⟨[1, 2], [⟨1, 2, DepType.SS, 2⟩]⟩

/-- The CPM result of the SS example (checked by `decide` against
`run_cpm dursAB GSS [1, 2]`). -/
def resSSList : List (Int × CpmRec) :=
  [(1, { ES := 0, EF := 5, LS := 0, LF := 5, total_float_days := 0,
         on_critical_path := true }),
   (2, { ES := 2, EF := 7, LS := 2, LF := 7, total_float_days := 0,
         on_critical_path := true })]

/-- A self-loop graph (cyclic). -/
def GLoop : DiGraph := ⟨[1], [⟨1, 1, DepType.FS, 0⟩]⟩

/-- Builder input whose first row has a self-dependency inside a
two-node cycle (1 depends on 2 and on itself, 2 depends on 1). -/
def rowsSelfCycle : List ActivityRow :=
  [⟨PyVal.intv 1, some "2FS;1FS"⟩, ⟨PyVal.intv 2, some "1FS"⟩]

/-- Builder input with the 3-cycle 1 -> 2 -> 3 -> 1. -/
def rowsCycle3 : List ActivityRow :=
  [⟨PyVal.intv 1, some "3FS"⟩, ⟨PyVal.intv 2, some "1FS"⟩,
   ⟨PyVal.intv 3, some "2FS"⟩]

/-- Acyclic builder input with the same node count. -/
def rowsAcyclic3 : List ActivityRow :=
  [⟨PyVal.intv 1, none⟩, ⟨PyVal.intv 2, some "1FS"⟩,
   ⟨PyVal.intv 3, some "2FS;1FS"⟩]

/-- Builder input whose only row has a `None` activity id. -/
def rowsNoneId : List ActivityRow := [⟨PyVal.nonev, none⟩]

/-- A CPM record as produced by the solver (no dates yet). -/
def recA : CpmRec :=
  { ES := 0, EF := 5, LS := 0, LF := 5, total_float_days := 0
    on_critical_path := true }

/-- Caller-side top-level dict for the aliasing example: activity 7
maps to heap reference 0. -/
def topAlias : List (Int × Nat) := [(7, 0)]

/-- Caller-side heap for the aliasing example. -/
def heapAlias : List (Nat × CpmRec) := [(0, recA)]

/-- Forecast fixture rows: activity 1 finished late (baseline finish
day 1 = Friday 1970-01-02, actual finish day 7 = the following
Thursday), activity 2 not started, activity 3 finished early. -/
def rowF1 : ForecastRow :=
  { actual_start := some 0, actual_finish := some 7
    baseline_1_start := some 0, baseline_1_finish := some 1
    planned_duration := some 2 }

/-- Not-started successor of activity 1, with CPM dates. -/
def rowF2 : ForecastRow :=
  { baseline_1_start := some 4, baseline_1_finish := some 5
    ES_date := some 8, EF_date := some 9, planned_duration := some 2 }

/-- Finished five business days ahead of its baseline finish. -/
def rowF3 : ForecastRow :=
  { actual_start := some 0, actual_finish := some 0
    baseline_1_start := some 4, baseline_1_finish := some 7
    planned_duration := some 5 }

/-- Forecast fixture table lookup (node 4 has no row). -/
def dfF : Int → Option ForecastRow := fun n =>
  if n = 1 then some rowF1 else if n = 2 then some rowF2
  else if n = 3 then some rowF3 else none

/-- Forecast fixture graph: 1 -> 2, and isolated nodes 3 and 4. -/
def GF : DiGraph := ⟨[1, 2, 3, 4], [⟨1, 2, DepType.FS, 0⟩]⟩


/-- Offset fields of two CPM records agree. -/
def offsetsEq (a b : CpmRec) : Prop :=
  a.ES = b.ES ∧ a.EF = b.EF ∧ a.LS = b.LS ∧ a.LF = b.LF ∧
    a.total_float_days = b.total_float_days ∧
    a.on_critical_path = b.on_critical_path

/-- All calendar-date fields (and the resolved duration) are present. -/
def datesSet (r : CpmRec) : Prop :=
  r.ES_date.isSome = true ∧ r.EF_date.isSome = true ∧
    r.LS_date.isSome = true ∧ r.LF_date.isSome = true ∧
    r.planned_duration.isSome = true

/-- Does `pat` occur at the very start of the character list? -/
def leadsChars : List Char → List Char → Bool
  | [], _ => true
  | _ :: _, [] => false
  | p :: ps, c :: cs => decide (p = c) && leadsChars ps cs

/-- Does `pat` occur contiguously anywhere in the character list? -/
def isSubChars (pat : List Char) : List Char → Bool
  | [] => decide (pat = [])
  | c :: rest => leadsChars pat (c :: rest) || isSubChars pat rest

/-- Substring test (`pat in s` for Python strings). -/
def containsSub (pat s : String) : Bool := isSubChars pat.toList s.toList

/-- The 3-cycle fixture graph as built from `rowsCycle3`. -/
def GC3 : DiGraph :=
  ⟨[1, 2, 3], [⟨3, 1, DepType.FS, 0⟩, ⟨1, 2, DepType.FS, 0⟩,
    ⟨2, 3, DepType.FS, 0⟩]⟩

/-- The statuses built from `rowsCycle3`. -/
def stsC3 : List (StatusKey × String) :=
  [(StatusKey.id 1, "ERROR: Cycle detected (1->2->3)"),
   (StatusKey.id 2, "ERROR: Cycle detected (1->2->3)"),
   (StatusKey.id 3, "ERROR: Cycle detected (1->2->3)")]

/-! Theorems begin here.

Association-list (dict) lemmas. -/

theorem dlookup_dictSet_self {K V : Type} [DecidableEq K]
    (m : List (K × V)) (k : K) (v : V) :
    dlookup k (dictSet m k v) = some v := by
  induction m with
  | nil => simp [dictSet, dlookup]
  | cons p rest ih =>
    by_cases h : p.1 = k
    · simp [dictSet, h, dlookup]
    · simp [dictSet, h, dlookup, ih]

theorem dlookup_dictSet_ne {K V : Type} [DecidableEq K]
    (m : List (K × V)) (k k' : K) (v : V) (h : k' ≠ k) :
    dlookup k' (dictSet m k v) = dlookup k' m := by
  induction m with
  | nil => simp [dictSet, dlookup, Ne.symm h]
  | cons p rest ih =>
    by_cases hp : p.1 = k
    · simp [dictSet, hp, dlookup, Ne.symm h]
    · simp [dictSet, hp, dlookup, ih]

theorem mem_dictSet {K V : Type} [DecidableEq K]
    {m : List (K × V)} {k : K} {v : V} {p : K × V}
    (h : p ∈ dictSet m k v) : p = (k, v) ∨ p ∈ m := by
  induction m with
  | nil => simpa [dictSet] using h
  | cons q rest ih =>
    by_cases hq : q.1 = k
    · simp only [dictSet, hq, if_pos rfl] at h
      rcases List.mem_cons.1 h with h1 | h1
      · exact Or.inl h1
      · exact Or.inr (List.mem_cons_of_mem _ h1)
    · simp only [dictSet, hq, if_neg hq] at h
      rcases List.mem_cons.1 h with h1 | h1
      · exact Or.inr (h1 ▸ List.mem_cons_self _ _)
      · rcases ih h1 with h2 | h2
        · exact Or.inl h2
        · exact Or.inr (List.mem_cons_of_mem _ h2)

theorem dlookup_isSome_dictSet_of_isSome {K V : Type} [DecidableEq K]
    {m : List (K × V)} {k' : K} (k : K) (v : V)
    (h : (dlookup k' m).isSome) : (dlookup k' (dictSet m k v)).isSome := by
  by_cases hk : k' = k
  · rw [hk, dlookup_dictSet_self]; rfl
  · rwa [dlookup_dictSet_ne _ _ _ _ hk]

/-! ## List-position helpers for topological orders -/

theorem indexOf_append_cons_self {n : Int} (A B : List Int) (h : n ∉ A) :
    (A ++ n :: B).indexOf n = A.length := by
  induction A with
  | nil => simp
  | cons a t ih =>
    have ha : a ≠ n := by
      intro hc; exact h (hc ▸ List.mem_cons_self a t)
    have ht : n ∉ t := fun hc => h (List.mem_cons_of_mem a hc)
    simp [List.indexOf_cons_ne _ (by simpa using ha), ih ht]

theorem take_indexOf_split {order A B : List Int} {n : Int}
    (hsplit : order = A ++ n :: B) (hA : n ∉ A) :
    order.take (order.indexOf n) = A := by
  subst hsplit
  rw [indexOf_append_cons_self A B hA, List.take_left]

theorem indexOf_append_of_mem {a : Int} {A : List Int} (C : List Int)
    (h : a ∈ A) : (A ++ C).indexOf a = A.indexOf a := by
  induction A with
  | nil => cases h
  | cons x t ih =>
    by_cases hx : x = a
    · simp [hx]
    · have ht : a ∈ t := by
        rcases List.mem_cons.1 h with h1 | h1
        · exact absurd h1.symm hx
        · exact h1
      simp [List.indexOf_cons_ne _ (by simpa using hx), ih ht]

/-- In a duplicate-free order split as `A ++ n :: B`, any element that
the order places strictly before a successor-linked node lands in the
right part: if `n` is before `m` (i.e. `n ∈ take (indexOf m)`) and `m`
is in the order, then `m ∈ B`. -/
theorem mem_right_of_before {order A B : List Int} {n m : Int}
    (hnd : order.Nodup) (hsplit : order = A ++ n :: B)
    (hm : m ∈ order) (hbefore : n ∈ order.take (order.indexOf m)) :
    m ∈ B := by
  have hnA : n ∉ A := by
    intro hc
    rw [hsplit, List.nodup_append] at hnd
    exact (hnd.2.2 hc) (List.mem_cons_self n B)
  rw [hsplit] at hm
  rcases List.mem_append.1 hm with hmA | hmCons
  · -- m in the left part: then take (indexOf m) is inside A, forcing n ∈ A
    exfalso
    have hidx : order.indexOf m = A.indexOf m := by
      rw [hsplit]; exact indexOf_append_of_mem _ hmA
    have hlt : A.indexOf m ≤ A.length := le_of_lt (List.indexOf_lt_length.2 hmA)
    have htake : order.take (order.indexOf m) = A.take (A.indexOf m) := by
      rw [hidx, hsplit, List.take_append_of_le_length hlt]
    rw [htake] at hbefore
    exact hnA (List.take_subset _ _ hbefore)
  · rcases List.mem_cons.1 hmCons with hmn | hmB
    · -- m = n: n would be strictly before itself
      exfalso
      have : order.take (order.indexOf m) = A := by
        exact take_indexOf_split (by rw [hsplit, ← hmn]) (hmn ▸ hnA)
      rw [this] at hbefore
      exact hnA hbefore
    · exact hmB

/-! ## Fold-frame machinery for the passes -/

theorem foldl_pair_frame (step : ((Int → Int) × (Int → Int)) → Int → ((Int → Int) × (Int → Int)))
    (hstep : ∀ st n m, m ≠ n → (step st n).1 m = st.1 m ∧ (step st n).2 m = st.2 m)
    (l : List Int) (st : (Int → Int) × (Int → Int)) (m : Int) (hm : m ∉ l) :
    (l.foldl step st).1 m = st.1 m ∧ (l.foldl step st).2 m = st.2 m := by
  induction l generalizing st with
  | nil => exact ⟨rfl, rfl⟩
  | cons a t ih =>
    have hma : m ≠ a := fun hc => hm (hc ▸ List.mem_cons_self a t)
    have hmt : m ∉ t := fun hc => hm (List.mem_cons_of_mem a hc)
    have h1 := hstep st a m hma
    have h2 := ih (step st a) hmt
    exact ⟨h2.1.trans h1.1, h2.2.trans h1.2⟩

theorem forwardStep_frame (durations : Int → Int) (G : DiGraph)
    (st : (Int → Int) × (Int → Int)) (n m : Int) (h : m ≠ n) :
    (forwardStep durations G st n).1 m = st.1 m ∧
    (forwardStep durations G st n).2 m = st.2 m := by
  unfold forwardStep
  exact ⟨Function.update_noteq h _ _, Function.update_noteq h _ _⟩

theorem backwardStep_frame (durations : Int → Int) (G : DiGraph) (pf : Int)
    (st : (Int → Int) × (Int → Int)) (n m : Int) (h : m ≠ n) :
    (backwardStep durations G pf st n).1 m = st.1 m ∧
    (backwardStep durations G pf st n).2 m = st.2 m := by
  unfold backwardStep
  exact ⟨Function.update_noteq h _ _, Function.update_noteq h _ _⟩

/-! ## Forward-pass recurrence -/

theorem forwardPass_spec (durations : Int → Int) (G : DiGraph) (order : List Int)
    (hord : IsTopoOrder G order) (n : Int) (hn : n ∈ order) :
    (forwardPass durations G order).1 n =
      maxOrZero ((predEdges G n).map
        (fwdConstraint (forwardPass durations G order).1
          (forwardPass durations G order).2 (durations n))) ∧
    (forwardPass durations G order).2 n =
      (forwardPass durations G order).1 n + durations n := by
  obtain ⟨hnd, _hmo, _hmn, hedge⟩ := hord
  obtain ⟨A, B, hsplit⟩ := List.append_of_mem hn
  have hnods : (A ++ n :: B).Nodup := hsplit ▸ hnd
  rw [List.nodup_append] at hnods
  obtain ⟨_hAnd, hnBnd, hdisj⟩ := hnods
  have hnA : n ∉ A := fun hc => (hdisj hc) (List.mem_cons_self n B)
  have hnB : n ∉ B := (List.nodup_cons.1 hnBnd).1
  have hfold : forwardPass durations G order =
      B.foldl (forwardStep durations G)
        (forwardStep durations G
          (A.foldl (forwardStep durations G) (fun _ => 0, fun _ => 0)) n) := by
    rw [forwardPass, hsplit, List.foldl_append]
    rfl
  set st1 := A.foldl (forwardStep durations G) (fun _ => 0, fun _ => 0) with hst1
  have hframeN :
      (forwardPass durations G order).1 n = (forwardStep durations G st1 n).1 n ∧
      (forwardPass durations G order).2 n = (forwardStep durations G st1 n).2 n := by
    rw [hfold]
    exact foldl_pair_frame _ (forwardStep_frame durations G) B _ n hnB
  have hpred : ∀ e ∈ predEdges G n,
      (forwardPass durations G order).1 e.src = st1.1 e.src ∧
      (forwardPass durations G order).2 e.src = st1.2 e.src := by
    intro e he
    have hef := List.mem_filter.1 he
    have hdst : e.dst = n := of_decide_eq_true hef.2
    have hsrcbef : e.src ∈ order.take (order.indexOf e.dst) := hedge e hef.1
    have htake : order.take (order.indexOf n) = A := take_indexOf_split hsplit hnA
    have hsrcA : e.src ∈ A := by
      rw [hdst, htake] at hsrcbef
      exact hsrcbef
    have hsrcne : e.src ≠ n := fun hc => hnA (hc ▸ hsrcA)
    have hsrcB : e.src ∉ B := fun hc => (hdisj hsrcA) (List.mem_cons_of_mem _ hc)
    have h1 := foldl_pair_frame _ (forwardStep_frame durations G) B
      (forwardStep durations G st1 n) e.src hsrcB
    have h2 := forwardStep_frame durations G st1 n e.src hsrcne
    rw [hfold]
    exact ⟨h1.1.trans h2.1, h1.2.trans h2.2⟩
  have hmapeq : (predEdges G n).map
      (fwdConstraint (forwardPass durations G order).1
        (forwardPass durations G order).2 (durations n)) =
      (predEdges G n).map (fwdConstraint st1.1 st1.2 (durations n)) := by
    apply List.map_congr_left
    intro e he
    have h := hpred e he
    cases e with
    | mk src dst typ lag =>
      cases typ <;> simp [fwdConstraint, h.1, h.2]
  have hstep1 : (forwardStep durations G st1 n).1 n =
      maxOrZero ((predEdges G n).map (fwdConstraint st1.1 st1.2 (durations n))) := by
    simp [forwardStep, Function.update_same]
  have hstep2 : (forwardStep durations G st1 n).2 n =
      maxOrZero ((predEdges G n).map (fwdConstraint st1.1 st1.2 (durations n)))
        + durations n := by
    simp [forwardStep, Function.update_same]
  refine ⟨?_, ?_⟩
  · rw [hframeN.1, hstep1, hmapeq]
  · rw [hframeN.2, hstep2, hframeN.1, hstep1]

/-! ## Backward-pass recurrence -/

theorem backwardPass_spec (durations : Int → Int) (G : DiGraph) (order : List Int)
    (pf : Int) (hwf : Wellformed G) (hord : IsTopoOrder G order) (n : Int)
    (hn : n ∈ order) :
    (backwardPass durations G order pf).2 n =
      minOrDefault pf ((succEdges G n).map
        (bwdConstraint (backwardPass durations G order pf).1
          (backwardPass durations G order pf).2 (durations n))) ∧
    (backwardPass durations G order pf).1 n =
      (backwardPass durations G order pf).2 n - durations n := by
  obtain ⟨hnd, _hmo, hmn, hedge⟩ := hord
  obtain ⟨A, B, hsplit⟩ := List.append_of_mem hn
  have hnods : (A ++ n :: B).Nodup := hsplit ▸ hnd
  rw [List.nodup_append] at hnods
  obtain ⟨_hAnd, hnBnd, hdisj⟩ := hnods
  have hnA : n ∉ A := fun hc => (hdisj hc) (List.mem_cons_self n B)
  have hnB : n ∉ B := (List.nodup_cons.1 hnBnd).1
  have hrevsplit : order.reverse = B.reverse ++ n :: A.reverse := by
    rw [hsplit]
    simp
  have hfold : backwardPass durations G order pf =
      A.reverse.foldl (backwardStep durations G pf)
        (backwardStep durations G pf
          (B.reverse.foldl (backwardStep durations G pf)
            (fun _ => pf, fun _ => pf)) n) := by
    rw [backwardPass, hrevsplit, List.foldl_append]
    rfl
  set st1 := B.reverse.foldl (backwardStep durations G pf) (fun _ => pf, fun _ => pf)
    with hst1
  have hnArev : n ∉ A.reverse := fun hc => hnA (List.mem_reverse.1 hc)
  have hframeN :
      (backwardPass durations G order pf).1 n =
        (backwardStep durations G pf st1 n).1 n ∧
      (backwardPass durations G order pf).2 n =
        (backwardStep durations G pf st1 n).2 n := by
    rw [hfold]
    exact foldl_pair_frame _ (backwardStep_frame durations G pf) A.reverse _ n hnArev
  have hsucc : ∀ e ∈ succEdges G n,
      (backwardPass durations G order pf).1 e.dst = st1.1 e.dst ∧
      (backwardPass durations G order pf).2 e.dst = st1.2 e.dst := by
    intro e he
    have hef := List.mem_filter.1 he
    have hsrc : e.src = n := of_decide_eq_true hef.2
    have hmdst : e.dst ∈ order := hmn e.dst (hwf e hef.1).2
    have hbefore : n ∈ order.take (order.indexOf e.dst) := by
      have h := hedge e hef.1
      rwa [hsrc] at h
    have hdstB : e.dst ∈ B := mem_right_of_before hnd hsplit hmdst hbefore
    have hdstne : e.dst ≠ n := fun hc => hnB (hc ▸ hdstB)
    have hdstA : e.dst ∉ A.reverse := fun hc =>
      (hdisj (List.mem_reverse.1 hc)) (List.mem_cons_of_mem _ hdstB)
    have h1 := foldl_pair_frame _ (backwardStep_frame durations G pf) A.reverse
      (backwardStep durations G pf st1 n) e.dst hdstA
    have h2 := backwardStep_frame durations G pf st1 n e.dst hdstne
    rw [hfold]
    exact ⟨h1.1.trans h2.1, h1.2.trans h2.2⟩
  have hmapeq : (succEdges G n).map
      (bwdConstraint (backwardPass durations G order pf).1
        (backwardPass durations G order pf).2 (durations n)) =
      (succEdges G n).map (bwdConstraint st1.1 st1.2 (durations n)) := by
    apply List.map_congr_left
    intro e he
    have h := hsucc e he
    cases e with
    | mk src dst typ lag =>
      cases typ <;> simp [bwdConstraint, h.1, h.2]
  have hstep2 : (backwardStep durations G pf st1 n).2 n =
      minOrDefault pf ((succEdges G n).map (bwdConstraint st1.1 st1.2 (durations n))) := by
    simp [backwardStep, Function.update_same]
  have hstep1 : (backwardStep durations G pf st1 n).1 n =
      minOrDefault pf ((succEdges G n).map (bwdConstraint st1.1 st1.2 (durations n)))
        - durations n := by
    simp [backwardStep, Function.update_same]
  refine ⟨?_, ?_⟩
  · rw [hframeN.2, hstep2, hmapeq]
  · rw [hframeN.1, hstep1, hframeN.2, hstep2]

/-! ## run_cpm result shape -/

theorem dlookup_map_self {V : Type} (l : List Int) (f : Int → V) (k : Int)
    (hk : k ∈ l) : dlookup k (l.map (fun x => (x, f x))) = some (f k) := by
  induction l with
  | nil => cases hk
  | cons a t ih =>
    by_cases h : a = k
    · simp [dlookup, h]
    · rcases List.mem_cons.1 hk with h1 | h1
      · exact absurd h1.symm h
      · simp [dlookup, h, ih h1]

theorem run_cpm_ok_shape (durations : Int → Int) (G : DiGraph) (order : List Int)
    (res : List (Int × CpmRec)) (hok : run_cpm durations G order = .ok res)
    (hne : G.nodes ≠ []) :
    res = G.nodes.map (fun m => (m,
      cpmRecordOf (forwardPass durations G order).1 (forwardPass durations G order).2
        (backwardPass durations G order
          (pyMax (G.nodes.map (forwardPass durations G order).2))).1
        (backwardPass durations G order
          (pyMax (G.nodes.map (forwardPass durations G order).2))).2 m)) := by
  cases hcyc : hasCycleB G with
  | true => simp [run_cpm, hcyc] at hok
  | false =>
    have hemp : G.nodes.isEmpty = false := by
      cases hn : G.nodes with
      | nil => exact absurd hn hne
      | cons a t => rfl
    simp only [run_cpm, hcyc, Bool.false_eq_true, if_false, hemp,
      Except.ok.injEq] at hok
    exact hok.symm

theorem run_cpm_res_fields (durations : Int → Int) (G : DiGraph) (order : List Int)
    (res : List (Int × CpmRec)) (hok : run_cpm durations G order = .ok res)
    (m : Int) (hm : m ∈ G.nodes) :
    resES res m = (forwardPass durations G order).1 m ∧
    resEF res m = (forwardPass durations G order).2 m ∧
    resLS res m = (backwardPass durations G order
      (pyMax (G.nodes.map (forwardPass durations G order).2))).1 m ∧
    resLF res m = (backwardPass durations G order
      (pyMax (G.nodes.map (forwardPass durations G order).2))).2 m := by
  have hne : G.nodes ≠ [] := by
    intro h
    rw [h] at hm
    cases hm
  have hres := run_cpm_ok_shape durations G order res hok hne
  subst hres
  refine ⟨?_, ?_, ?_, ?_⟩ <;>
    simp [resES, resEF, resLS, resLF, dlookup_map_self G.nodes _ m hm, cpmRecordOf]

/-- **C1**: CPM forward pass — for every activity network and duration
map, `run_cpm` (visiting a topological order) sets `ES(node)` to the
maximum over its incoming edges of the type-specific constraint
(FS: `pred.EF + lag`; SS: `pred.ES + lag`; FF: `pred.EF + lag − dur`;
SF: `pred.ES + lag − dur`), or 0 when the node has no predecessors, and
sets `EF(node) = ES(node) + duration(node)`; in particular for
A (5 days) -> B (5 days, SS+2d from A), `B.ES = 2` and `B.EF = 7`. -/
theorem c1_cpm_forward_pass :
    (∀ (durations : Int → Int) (G : DiGraph) (order : List Int)
        (res : List (Int × CpmRec)) (n : Int),
      Wellformed G → IsTopoOrder G order → run_cpm durations G order = .ok res →
      n ∈ G.nodes →
      ∃ r, dlookup n res = some r ∧
        r.ES = maxOrZero ((predEdges G n).map
          (fwdConstraint (resES res) (resEF res) (durations n))) ∧
        (predEdges G n = [] → r.ES = 0) ∧
        r.EF = r.ES + durations n) ∧
    (∃ r, (run_cpm dursAB GSS [1, 2]).toOption.bind (dlookup 2) = some r ∧
      r.ES = 2 ∧ r.EF = 7) := by
  constructor
  · intro durations G order res n hwf hord hok hn
    have hne : G.nodes ≠ [] := by
      intro h
      rw [h] at hn
      cases hn
    have hnord : n ∈ order := hord.2.2.1 n hn
    have hshape := run_cpm_ok_shape durations G order res hok hne
    have hspec := forwardPass_spec durations G order hord n hnord
    have hlook : dlookup n res = some
        (cpmRecordOf (forwardPass durations G order).1 (forwardPass durations G order).2
          (backwardPass durations G order
            (pyMax (G.nodes.map (forwardPass durations G order).2))).1
          (backwardPass durations G order
            (pyMax (G.nodes.map (forwardPass durations G order).2))).2 n) := by
      rw [hshape]
      exact dlookup_map_self G.nodes _ n hn
    refine ⟨_, hlook, ?_, ?_, ?_⟩
    · -- ES satisfies the recurrence over the final result map
      have hmapeq : (predEdges G n).map
          (fwdConstraint (resES res) (resEF res) (durations n)) =
          (predEdges G n).map
            (fwdConstraint (forwardPass durations G order).1
              (forwardPass durations G order).2 (durations n)) := by
        apply List.map_congr_left
        intro e he
        have hef := List.mem_filter.1 he
        have hsrcn : e.src ∈ G.nodes := (hwf e hef.1).1
        have hf := run_cpm_res_fields durations G order res hok e.src hsrcn
        cases e with
        | mk src dst typ lag =>
          cases typ <;> simp [fwdConstraint, hf.1, hf.2.1]
      rw [hmapeq]
      simpa [cpmRecordOf] using hspec.1
    · intro hnopred
      simp [cpmRecordOf, hspec.1, hnopred, maxOrZero]
    · simpa [cpmRecordOf] using hspec.2
  · exact ⟨{ ES := 2, EF := 7, LS := 2, LF := 7, total_float_days := 0,
             on_critical_path := true }, by decide, by decide, by decide⟩

/-- Witness for C1: the SS-with-lag fixture satisfies every hypothesis
and the recurrence at node 2. -/
theorem c1_witness :
    Wellformed GSS ∧ IsTopoOrder GSS [1, 2] ∧
    run_cpm dursAB GSS [1, 2] = .ok resSSList ∧ (2 : Int) ∈ GSS.nodes ∧
    (∃ r, dlookup 2 resSSList = some r ∧
      r.ES = maxOrZero ((predEdges GSS 2).map
        (fwdConstraint (resES resSSList) (resEF resSSList) (dursAB 2))) ∧
      (predEdges GSS 2 = [] → r.ES = 0) ∧
      r.EF = r.ES + dursAB 2) :=
  ⟨by decide, by decide, by decide, by decide,
    c1_cpm_forward_pass.1 dursAB GSS [1, 2] resSSList 2 (by decide) (by decide)
      (by decide) (by decide)⟩

/-- **C2**: CPM backward pass and derived quantities — for an acyclic
network `run_cpm` sets `ProjectFinish = max(EF)` over all nodes, and in
reverse topological order sets `LF(node)` to `ProjectFinish` when the
node has no successors and otherwise to the minimum outgoing-edge
constraint (FS: `succ.LS − lag`; SS: `succ.LS − lag + dur`;
FF: `succ.LF − lag`; SF: `succ.LF − lag + dur`), with
`LS = LF − duration`, `TotalFloat = LS − ES = LF − EF`, and
`IsCritical` true exactly when the float is within a small epsilon of
zero or negative (for integer floats: float ≤ 0). -/
theorem c2_cpm_backward_pass :
    ∀ (durations : Int → Int) (G : DiGraph) (order : List Int)
      (res : List (Int × CpmRec)) (n : Int),
    Wellformed G → IsTopoOrder G order → run_cpm durations G order = .ok res →
    n ∈ G.nodes →
    ∃ r, dlookup n res = some r ∧
      r.LF = minOrDefault (pyMax (G.nodes.map (resEF res)))
        ((succEdges G n).map
          (bwdConstraint (resLS res) (resLF res) (durations n))) ∧
      (succEdges G n = [] → r.LF = pyMax (G.nodes.map (resEF res))) ∧
      r.LS = r.LF - durations n ∧
      r.total_float_days = r.LS - r.ES ∧
      r.total_float_days = r.LF - r.EF ∧
      (r.on_critical_path = true ↔ r.total_float_days ≤ 0) := by
  intro durations G order res n hwf hord hok hn
  have hne : G.nodes ≠ [] := by
    intro h
    rw [h] at hn
    cases hn
  have hnord : n ∈ order := hord.2.2.1 n hn
  have hshape := run_cpm_ok_shape durations G order res hok hne
  have hfspec := forwardPass_spec durations G order hord n hnord
  have hbspec := backwardPass_spec durations G order
    (pyMax (G.nodes.map (forwardPass durations G order).2)) hwf hord n hnord
  have hlook : dlookup n res = some
      (cpmRecordOf (forwardPass durations G order).1 (forwardPass durations G order).2
        (backwardPass durations G order
          (pyMax (G.nodes.map (forwardPass durations G order).2))).1
        (backwardPass durations G order
          (pyMax (G.nodes.map (forwardPass durations G order).2))).2 n) := by
    rw [hshape]
    exact dlookup_map_self G.nodes _ n hn
  have hpfeq : pyMax (G.nodes.map (resEF res)) =
      pyMax (G.nodes.map (forwardPass durations G order).2) := by
    have : G.nodes.map (resEF res) = G.nodes.map (forwardPass durations G order).2 := by
      apply List.map_congr_left
      intro m hm
      exact (run_cpm_res_fields durations G order res hok m hm).2.1
    rw [this]
  have hmapeq : (succEdges G n).map
      (bwdConstraint (resLS res) (resLF res) (durations n)) =
      (succEdges G n).map
        (bwdConstraint (backwardPass durations G order
            (pyMax (G.nodes.map (forwardPass durations G order).2))).1
          (backwardPass durations G order
            (pyMax (G.nodes.map (forwardPass durations G order).2))).2 (durations n)) := by
    apply List.map_congr_left
    intro e he
    have hef := List.mem_filter.1 he
    have hdstn : e.dst ∈ G.nodes := (hwf e hef.1).2
    have hf := run_cpm_res_fields durations G order res hok e.dst hdstn
    cases e with
    | mk src dst typ lag =>
      cases typ <;> simp [bwdConstraint, hf.2.2.1, hf.2.2.2]
  refine ⟨_, hlook, ?_, ?_, ?_, ?_, ?_, ?_⟩
  · rw [hpfeq, hmapeq]
    simpa [cpmRecordOf] using hbspec.1
  · intro hnosucc
    rw [hpfeq]
    have := hbspec.1
    simpa [cpmRecordOf, hnosucc, minOrDefault] using this
  · simpa [cpmRecordOf] using hbspec.2
  · simp [cpmRecordOf]
  · -- LS − ES = LF − EF, since EF = ES + dur and LS = LF − dur
    have h1 := hfspec.2
    have h2 := hbspec.2
    simp only [cpmRecordOf]
    omega
  · -- criticality: decide (f = 0) || decide (f < 0) is true iff f ≤ 0
    simp only [cpmRecordOf, Bool.or_eq_true, decide_eq_true_eq]
    omega

/-- Witness for C2: the SS-with-lag fixture at node 1 (its single
outgoing SS edge constrains `LF(1) = LS(2) − 2 + 5 = 5`, float 0,
critical). -/
theorem c2_witness :
    Wellformed GSS ∧ IsTopoOrder GSS [1, 2] ∧
    run_cpm dursAB GSS [1, 2] = .ok resSSList ∧ (1 : Int) ∈ GSS.nodes ∧
    (∃ r, dlookup 1 resSSList = some r ∧
      r.LF = minOrDefault (pyMax (GSS.nodes.map (resEF resSSList)))
        ((succEdges GSS 1).map
          (bwdConstraint (resLS resSSList) (resLF resSSList) (dursAB 1))) ∧
      (succEdges GSS 1 = [] → r.LF = pyMax (GSS.nodes.map (resEF resSSList))) ∧
      r.LS = r.LF - dursAB 1 ∧
      r.total_float_days = r.LS - r.ES ∧
      r.total_float_days = r.LF - r.EF ∧
      (r.on_critical_path = true ↔ r.total_float_days ≤ 0)) :=
  ⟨by decide, by decide, by decide, by decide,
    c2_cpm_backward_pass dursAB GSS [1, 2] resSSList 1 (by decide) (by decide)
      (by decide) (by decide)⟩

/-! ## Calendar lemmas -/

theorem addBus_zero (d : Int) : addBus d 0 = d := rfl

theorem isBusday_rollForward (d : Int) : isBusday (rollForward d) := by
  unfold rollForward isBusday dayOfWeek
  split_ifs <;> omega

theorem rollForward_busday {d : Int} (h : isBusday d) : rollForward d = d := by
  unfold isBusday dayOfWeek at h
  unfold rollForward dayOfWeek
  split_ifs <;> omega

theorem le_rollForward (d : Int) : d ≤ rollForward d := by
  unfold rollForward dayOfWeek
  split_ifs <;> omega

theorem rollForward_min {d b : Int} (hd : d ≤ b) (hb : isBusday b) :
    rollForward d ≤ b := by
  unfold isBusday dayOfWeek at hb
  unfold rollForward dayOfWeek
  split_ifs <;> omega

theorem dlookup_map_pair {V W : Type} (f : Int → V → W) (l : List (Int × V))
    (k : Int) (r : V) (h : dlookup k l = some r) :
    dlookup k (l.map (fun p => (p.1, f p.1 p.2))) = some (f k r) := by
  induction l with
  | nil => cases h
  | cons p rest ih =>
    simp only [dlookup, List.map_cons] at h ⊢
    by_cases hp : p.1 = k
    · rw [if_pos hp] at h
      rw [if_pos hp]
      injection h with h2
      rw [← hp, h2]
    · rw [if_neg hp] at h
      rw [if_neg hp]
      exact ih h

theorem convert_eq_map (l : List (Int × CpmRec)) (anchor : Int)
    (durs : Int → Int) :
    convert_offsets_to_dates l anchor durs =
      l.map (fun p => (p.1, enrichRec (busday_offset_np anchor 0) (durs p.1) p.2)) :=
  rfl

/-- **C3**: Calendar conversion — `convert_offsets_to_dates` first
rolls the anchor forward to the next business day if it falls on a
weekend (never backward), sets `ES_date` (`LS_date`) to the anchor plus
`ES` (`LS`) business days, and sets `EF_date`/`LF_date` to the anchor
plus `offset − 1` business days when the activity's duration is
positive but to the anchor plus the raw offset when the duration is 0
(milestone); in particular a Saturday anchor (day 2) rolls to the
following Monday (day 4) and a 5-day activity starting that Monday has
finish date the following Friday (day 8). -/
theorem c3_convert_offsets_to_dates :
    (∀ (cpm_results : List (Int × CpmRec)) (anchor : Int) (durations : Int → Int),
      (isBusday (rollForward anchor) ∧ anchor ≤ rollForward anchor ∧
        (isBusday anchor → rollForward anchor = anchor) ∧
        (∀ b, anchor ≤ b → isBusday b → rollForward anchor ≤ b)) ∧
      (∀ aid r, dlookup aid cpm_results = some r →
        ∃ r2, dlookup aid (convert_offsets_to_dates cpm_results anchor durations) =
            some r2 ∧
          r2.ES_date = some (addBus (rollForward anchor) r.ES) ∧
          r2.LS_date = some (addBus (rollForward anchor) r.LS) ∧
          r2.EF_date = some (if 0 < durations aid
            then addBus (rollForward anchor) (r.EF - 1)
            else addBus (rollForward anchor) r.EF) ∧
          r2.LF_date = some (if 0 < durations aid
            then addBus (rollForward anchor) (r.LF - 1)
            else addBus (rollForward anchor) r.LF))) ∧
    (dayOfWeek 2 = 5 ∧ rollForward 2 = 4 ∧ dayOfWeek 4 = 0 ∧
      (∃ r2, dlookup 1 (convert_offsets_to_dates [(1, recA)] 2 (fun _ => 5)) =
          some r2 ∧ r2.ES_date = some 4 ∧ r2.EF_date = some 8 ∧ dayOfWeek 8 = 4)) := by
  constructor
  · intro cpm_results anchor durations
    constructor
    · exact ⟨isBusday_rollForward anchor, le_rollForward anchor,
        fun h => rollForward_busday h,
        fun b hb hbb => rollForward_min hb hbb⟩
    · intro aid r h
      have hps : busday_offset_np anchor 0 = rollForward anchor := by
        rw [busday_offset_np, addBus_zero]
      have hroll : rollForward (rollForward anchor) = rollForward anchor :=
        rollForward_busday (isBusday_rollForward anchor)
      refine ⟨enrichRec (busday_offset_np anchor 0) (durations aid) r, ?_, ?_, ?_, ?_, ?_⟩
      · rw [convert_eq_map]
        exact dlookup_map_pair
          (fun a v => enrichRec (busday_offset_np anchor 0) (durations a) v)
          cpm_results aid r h
      all_goals simp [enrichRec, hps, busday_offset_np, addBus_zero, hroll]
  · refine ⟨by decide, by decide, by decide,
      ⟨enrichRec 4 5 recA, by decide, by decide, by decide, by decide⟩⟩

/-- Witness for C3: the general part applied to the Saturday-anchor
fixture. -/
theorem c3_witness :
    dlookup 1 [(1, recA)] = some recA ∧
    (∃ r2, dlookup 1 (convert_offsets_to_dates [(1, recA)] 2 (fun _ => 5)) =
        some r2 ∧
      r2.ES_date = some (addBus (rollForward 2) recA.ES) ∧
      r2.LS_date = some (addBus (rollForward 2) recA.LS) ∧
      r2.EF_date = some (if 0 < (5 : Int)
        then addBus (rollForward 2) (recA.EF - 1)
        else addBus (rollForward 2) recA.EF) ∧
      r2.LF_date = some (if 0 < (5 : Int)
        then addBus (rollForward 2) (recA.LF - 1)
        else addBus (rollForward 2) recA.LF)) :=
  ⟨by decide,
    ((c3_convert_offsets_to_dates.1 [(1, recA)] 2 (fun _ => 5)).2 1 recA (by decide))⟩

/-! ## Forecast fold machinery -/

theorem forecast_foldl_frame (G : DiGraph) (df_lookup : Int → Option ForecastRow)
    (l : List Int) (acc : List (Int × ForecastRes)) (m : Int) (hm : m ∉ l) :
    dlookup m (l.foldl
      (fun results node => dictSet results node (calcNodeRes G df_lookup results node))
      acc) = dlookup m acc := by
  induction l generalizing acc with
  | nil => rfl
  | cons a t ih =>
    have hma : m ≠ a := fun hc => hm (hc ▸ List.mem_cons_self a t)
    have hmt : m ∉ t := fun hc => hm (List.mem_cons_of_mem a hc)
    rw [List.foldl_cons, ih _ hmt, dlookup_dictSet_ne _ _ _ _ hma]

theorem forecast_foldl_isSome (G : DiGraph) (df_lookup : Int → Option ForecastRow)
    (l : List Int) (acc : List (Int × ForecastRes)) (n : Int)
    (h : n ∈ l ∨ (dlookup n acc).isSome) :
    (dlookup n (l.foldl
      (fun results node => dictSet results node (calcNodeRes G df_lookup results node))
      acc)).isSome := by
  induction l generalizing acc with
  | nil =>
    rcases h with h | h
    · cases h
    · exact h
  | cons a t ih =>
    rw [List.foldl_cons]
    rcases h with h | h
    · rcases List.mem_cons.1 h with h1 | h1
      · refine ih _ (Or.inr ?_)
        rw [h1, dlookup_dictSet_self]
        rfl
      · exact ih _ (Or.inl h1)
    · refine ih _ (Or.inr ?_)
      exact dlookup_isSome_dictSet_of_isSome _ _ h

theorem calcNodeRes_no_row (G : DiGraph) (df_lookup : Int → Option ForecastRow)
    (results : List (Int × ForecastRes)) (n : Int) (h : df_lookup n = none) :
    calcNodeRes G df_lookup results n = defaultForecastRes := by
  simp [calcNodeRes, h]

theorem forecast_foldl_default (G : DiGraph) (df_lookup : Int → Option ForecastRow)
    (n : Int) (hdf : df_lookup n = none) (l : List Int)
    (acc : List (Int × ForecastRes))
    (h : dlookup n acc = none ∨ dlookup n acc = some defaultForecastRes) :
    dlookup n (l.foldl
      (fun results node => dictSet results node (calcNodeRes G df_lookup results node))
      acc) = none ∨
    dlookup n (l.foldl
      (fun results node => dictSet results node (calcNodeRes G df_lookup results node))
      acc) = some defaultForecastRes := by
  induction l generalizing acc with
  | nil => exact h
  | cons a t ih =>
    rw [List.foldl_cons]
    by_cases ha : n = a
    · refine ih _ (Or.inr ?_)
      rw [← ha, dlookup_dictSet_self, calcNodeRes_no_row G df_lookup acc n hdf]
    · refine ih _ ?_
      rw [dlookup_dictSet_ne _ _ _ _ ha]
      exact h

/-- **C10**: Forecast totality — `calculate_forecasts` returns a result
entry for every node of the graph, and a node with no matching row in
the activity table receives the all-default result: percent complete 0,
actual/baseline/remaining durations 0, forecast start and finish
absent, and all four delay measures 0. -/
theorem c10_forecast_totality :
    ∀ (df_lookup : Int → Option ForecastRow) (G : DiGraph) (order : List Int)
      (n : Int),
    (∀ m ∈ G.nodes, m ∈ order) → n ∈ G.nodes →
    ∃ r, dlookup n (calculate_forecasts df_lookup G order) = some r ∧
      (df_lookup n = none →
        r = defaultForecastRes ∧
        r.percent_complete = 0 ∧ r.actual_duration = 0 ∧
        r.baseline_1_duration = 0 ∧ r.remaining_duration_days = 0 ∧
        r.forecast_start_date = none ∧ r.forecast_finish_date = none ∧
        r.delay_carried_in = 0 ∧ r.total_schedule_delay = 0 ∧
        r.task_created_delay = 0 ∧ r.delay_absorbed = 0) := by
  intro df_lookup G order n hcov hn
  have hsome := forecast_foldl_isSome G df_lookup order [] n (Or.inl (hcov n hn))
  rcases ho : dlookup n (calculate_forecasts df_lookup G order) with _ | r
  · rw [calculate_forecasts] at ho
    rw [ho] at hsome
    cases hsome
  · refine ⟨r, rfl, ?_⟩
    intro hdf
    have hd := forecast_foldl_default G df_lookup n hdf order [] (Or.inl rfl)
    rw [calculate_forecasts] at ho
    rcases hd with hd | hd
    · rw [hd] at ho
      cases ho
    · rw [hd] at ho
      injection ho with ho
      subst ho
      exact ⟨rfl, rfl, rfl, rfl, rfl, rfl, rfl, rfl, rfl, rfl, rfl⟩

/-- Witness for C10: node 4 of the forecast fixture has no row and gets
the all-default record. -/
theorem c10_witness :
    (∀ m ∈ GF.nodes, m ∈ [1, 2, 3, 4]) ∧ (4 : Int) ∈ GF.nodes ∧ dfF 4 = none ∧
    (∃ r, dlookup 4 (calculate_forecasts dfF GF [1, 2, 3, 4]) = some r ∧
      (dfF 4 = none →
        r = defaultForecastRes ∧
        r.percent_complete = 0 ∧ r.actual_duration = 0 ∧
        r.baseline_1_duration = 0 ∧ r.remaining_duration_days = 0 ∧
        r.forecast_start_date = none ∧ r.forecast_finish_date = none ∧
        r.delay_carried_in = 0 ∧ r.total_schedule_delay = 0 ∧
        r.task_created_delay = 0 ∧ r.delay_absorbed = 0)) :=
  ⟨by decide, by decide, by decide,
    c10_forecast_totality dfF GF [1, 2, 3, 4] 4 (by decide) (by decide)⟩

/-! ## Delay decomposition -/

theorem calcNodeRes_decomposition (G : DiGraph)
    (df_lookup : Int → Option ForecastRow) (results : List (Int × ForecastRes))
    (n : Int) :
    (calcNodeRes G df_lookup results n).task_created_delay =
      max 0 ((calcNodeRes G df_lookup results n).total_schedule_delay -
        (calcNodeRes G df_lookup results n).delay_carried_in) ∧
    (calcNodeRes G df_lookup results n).delay_absorbed =
      (calcNodeRes G df_lookup results n).delay_carried_in -
        (calcNodeRes G df_lookup results n).task_created_delay := by
  cases hdf : df_lookup n with
  | none => simp [calcNodeRes, hdf, defaultForecastRes]
  | some row => simp [calcNodeRes, hdf]

theorem forecast_foldl_decomposition (G : DiGraph)
    (df_lookup : Int → Option ForecastRow) (l : List Int)
    (acc : List (Int × ForecastRes))
    (hacc : ∀ p ∈ acc,
      p.2.task_created_delay = max 0 (p.2.total_schedule_delay - p.2.delay_carried_in) ∧
      p.2.delay_absorbed = p.2.delay_carried_in - p.2.task_created_delay) :
    ∀ p ∈ l.foldl
      (fun results node => dictSet results node (calcNodeRes G df_lookup results node))
      acc,
      p.2.task_created_delay = max 0 (p.2.total_schedule_delay - p.2.delay_carried_in) ∧
      p.2.delay_absorbed = p.2.delay_carried_in - p.2.task_created_delay := by
  induction l generalizing acc with
  | nil => exact hacc
  | cons a t ih =>
    rw [List.foldl_cons]
    refine ih _ ?_
    intro p hp
    rcases mem_dictSet hp with hp1 | hp1
    · rw [hp1]
      exact calcNodeRes_decomposition G df_lookup acc a
    · exact hacc p hp1

/-- **C5**: Delay decomposition invariant — for every activity in the
result of `calculate_forecasts`,
`TaskCreatedDelay = max(0, TotalScheduleDelay − DelayCarriedIn)` and
`DelayAbsorbed = DelayCarriedIn − TaskCreatedDelay` hold exactly,
including when the total schedule delay is negative. -/
theorem c5_delay_decomposition :
    ∀ (df_lookup : Int → Option ForecastRow) (G : DiGraph) (order : List Int)
      (p : Int × ForecastRes),
    p ∈ calculate_forecasts df_lookup G order →
    p.2.task_created_delay = max 0 (p.2.total_schedule_delay - p.2.delay_carried_in) ∧
    p.2.delay_absorbed = p.2.delay_carried_in - p.2.task_created_delay := by
  intro df_lookup G order p hp
  exact forecast_foldl_decomposition G df_lookup order [] (by intro q hq; cases hq) p hp

/-- Witness for C5: activity 3 of the forecast fixture finished five
business days early (`TotalScheduleDelay = −2 < 0`) and still satisfies
the decomposition exactly. -/
theorem c5_witness :
    (∃ r, (3, r) ∈ calculate_forecasts dfF GF [1, 2, 3, 4] ∧
      r.total_schedule_delay = -2 ∧
      r.task_created_delay = max 0 (r.total_schedule_delay - r.delay_carried_in) ∧
      r.delay_absorbed = r.delay_carried_in - r.task_created_delay) := by
  refine ⟨⟨100, 1, 4, 0, some 0, some 0, 0, -2, 0, 0⟩, ?_, by decide, ?_, ?_⟩
  · decide
  · exact (c5_delay_decomposition dfF GF [1, 2, 3, 4]
      (3, ⟨100, 1, 4, 0, some 0, some 0, 0, -2, 0, 0⟩) (by decide)).1
  · exact (c5_delay_decomposition dfF GF [1, 2, 3, 4]
      (3, ⟨100, 1, 4, 0, some 0, some 0, 0, -2, 0, 0⟩) (by decide)).2

/-- **C4**: Carried-in delay propagation — `calculate_forecasts`
processes activities in topological order and sets each activity's
`DelayCarriedIn` to `max(0, max over predecessors of the signed
business-day delta between the predecessor's own computed
ForecastFinish — the one produced earlier in the same run — and the
predecessor's baseline finish)` (predecessors lacking a computed
forecast finish or a baseline finish contribute nothing); an activity
with no predecessors has `DelayCarriedIn = 0`. -/
theorem c4_delay_carried_in :
    ∀ (df_lookup : Int → Option ForecastRow) (G : DiGraph) (order : List Int)
      (n : Int) (row : ForecastRow),
    Wellformed G → IsTopoOrder G order → n ∈ G.nodes → df_lookup n = some row →
    ∃ r, dlookup n (calculate_forecasts df_lookup G order) = some r ∧
      r.delay_carried_in = max 0 (pyMax (0 :: carriedDelays df_lookup
        (calculate_forecasts df_lookup G order)
        ((predEdges G n).map (fun e => e.src)))) ∧
      (predEdges G n = [] → r.delay_carried_in = 0) := by
  intro df_lookup G order n row hwf hord hn hdf
  obtain ⟨hnd, _hmo, hmn, hedge⟩ := hord
  have hnord : n ∈ order := hmn n hn
  obtain ⟨A, B, hsplit⟩ := List.append_of_mem hnord
  have hnods : (A ++ n :: B).Nodup := hsplit ▸ hnd
  rw [List.nodup_append] at hnods
  obtain ⟨_hAnd, hnBnd, hdisj⟩ := hnods
  have hnA : n ∉ A := fun hc => (hdisj hc) (List.mem_cons_self n B)
  have hnB : n ∉ B := (List.nodup_cons.1 hnBnd).1
  set step := fun (results : List (Int × ForecastRes)) (node : Int) =>
    dictSet results node (calcNodeRes G df_lookup results node) with hstep
  set stA := A.foldl step [] with hstA
  have hfold : calculate_forecasts df_lookup G order = B.foldl step (step stA n) := by
    rw [calculate_forecasts, hsplit, List.foldl_append]
    rfl
  have hlookn : dlookup n (calculate_forecasts df_lookup G order) =
      some (calcNodeRes G df_lookup stA n) := by
    rw [hfold, forecast_foldl_frame G df_lookup B _ n hnB, hstep,
      dlookup_dictSet_self]
  have hpredstable : ∀ p ∈ (predEdges G n).map (fun e => e.src),
      dlookup p (calculate_forecasts df_lookup G order) = dlookup p stA := by
    intro p hp
    obtain ⟨e, he, hesrc⟩ := List.mem_map.1 hp
    have hef := List.mem_filter.1 he
    have hdst : e.dst = n := of_decide_eq_true hef.2
    have hbefore : e.src ∈ order.take (order.indexOf n) := by
      have h := hedge e hef.1
      rwa [hdst] at h
    have htake : order.take (order.indexOf n) = A := take_indexOf_split hsplit hnA
    have hpA : p ∈ A := by
      rw [htake] at hbefore
      rw [← hesrc]
      exact hbefore
    have hpn : p ≠ n := fun hc => hnA (hc ▸ hpA)
    have hpB : p ∉ B := fun hc => (hdisj hpA) (List.mem_cons_of_mem _ hc)
    rw [hfold, forecast_foldl_frame G df_lookup B _ p hpB, hstep,
      dlookup_dictSet_ne _ _ _ _ hpn]
  have hcarr : carriedDelays df_lookup (calculate_forecasts df_lookup G order)
      ((predEdges G n).map (fun e => e.src)) =
      carriedDelays df_lookup stA ((predEdges G n).map (fun e => e.src)) := by
    apply List.filterMap_congr
    intro p hp
    rw [hpredstable p hp]
  refine ⟨calcNodeRes G df_lookup stA n, hlookn, ?_, ?_⟩
  · rw [hcarr]
    simp [calcNodeRes, hdf]
  · intro hnopred
    simp [calcNodeRes, hdf, hnopred, carriedDelays, pyMax]

/-- Witness for C4: activity 2 of the forecast fixture inherits 4
business days of delay from its predecessor 1, whose computed forecast
finish (day 7) is four business days past its baseline finish (day 1). -/
theorem c4_witness :
    Wellformed GF ∧ IsTopoOrder GF [1, 2, 3, 4] ∧ (2 : Int) ∈ GF.nodes ∧
    dfF 2 = some rowF2 ∧
    (∃ r, dlookup 2 (calculate_forecasts dfF GF [1, 2, 3, 4]) = some r ∧
      r.delay_carried_in = max 0 (pyMax (0 :: carriedDelays dfF
        (calculate_forecasts dfF GF [1, 2, 3, 4])
        ((predEdges GF 2).map (fun e => e.src)))) ∧
      (predEdges GF 2 = [] → r.delay_carried_in = 0)) ∧
    (∃ r, dlookup 2 (calculate_forecasts dfF GF [1, 2, 3, 4]) = some r ∧
      r.delay_carried_in = 4) :=
  ⟨by decide, by decide, by decide, by decide,
    c4_delay_carried_in dfF GF [1, 2, 3, 4] 2 rowF2 (by decide) (by decide)
      (by decide) (by decide),
    ⟨⟨0, 0, 2, 2, some 8, some 9, 4, 4, 0, 4⟩, by decide, by decide⟩⟩

/-! ## C7: the builder can throw -/

/-- **C7** (code bug): the claim says `build_dag_and_validate` never
raises for any input activity table, but the second pass catches only
`ValueError` around `int(row["activity_id"])` while the first pass
catches `(ValueError, TypeError)`; a row whose `activity_id` is `None`
makes `int()` raise `TypeError`, which propagates out of the function.
This theorem evaluates the model at that failing input. -/
theorem c7_build_throws_on_none_id :
    build_dag_and_validate rowsNoneId = .error .typeError := by decide

/-! ## C9: calendar conversion mutates the nested records -/

/-- **C9** (counterexample): `enriched_results = cpm_results.copy()`
is a shallow copy, so the per-activity records referenced by the
caller's input map are mutated in place.  After the call the record at
reference 0 — the one the caller's map binds to activity 7 — has
changed (it acquired calendar-date fields), refuting "the caller's
input map (including its nested per-activity records) is the same
after the call as before". -/
theorem c9_counterexample :
    dlookup 0 heapAlias = some recA ∧ recA.ES_date = none ∧
    dlookup 0 (convert_offsets_to_dates_heap topAlias heapAlias 2
      (fun _ => 5)).2 ≠ some recA ∧
    (∃ r, dlookup 0 (convert_offsets_to_dates_heap topAlias heapAlias 2
      (fun _ => 5)).2 = some r ∧ r.ES_date = some 4) := by
  refine ⟨by decide, by decide, by decide, ⟨enrichRec 4 5 recA, by decide, by decide⟩⟩

theorem enrichRec_offsetsEq (ps dur : Int) (r : CpmRec) :
    offsetsEq (enrichRec ps dur r) r := by
  exact ⟨rfl, rfl, rfl, rfl, rfl, rfl⟩

theorem enrichRec_datesSet (ps dur : Int) (r : CpmRec) :
    datesSet (enrichRec ps dur r) := by
  exact ⟨rfl, rfl, rfl, rfl, rfl⟩

theorem offsetsEq_trans {a b c : CpmRec} (h1 : offsetsEq a b) (h2 : offsetsEq b c) :
    offsetsEq a c := by
  obtain ⟨x1, x2, x3, x4, x5, x6⟩ := h1
  obtain ⟨y1, y2, y3, y4, y5, y6⟩ := h2
  exact ⟨x1.trans y1, x2.trans y2, x3.trans y3, x4.trans y4, x5.trans y5, x6.trans y6⟩

theorem convertHeapStep_lookup (ps : Int) (durations : Int → Int)
    (h : List (Nat × CpmRec)) (p : Int × Nat) (ref : Nat) :
    dlookup ref (convertHeapStep ps durations h p) = dlookup ref h ∨
    (ref = p.2 ∧ ∃ data, dlookup ref h = some data ∧
      dlookup ref (convertHeapStep ps durations h p) =
        some (enrichRec ps (durations p.1) data)) := by
  unfold convertHeapStep
  cases hl : dlookup p.2 h with
  | none => exact Or.inl rfl
  | some data =>
    by_cases hr : ref = p.2
    · subst hr
      exact Or.inr ⟨rfl, data, hl, dlookup_dictSet_self _ _ _⟩
    · exact Or.inl (dlookup_dictSet_ne _ _ _ _ hr)

theorem heap_fold_offsets (ps : Int) (durations : Int → Int)
    (top : List (Int × Nat)) (heap : List (Nat × CpmRec)) (ref : Nat)
    (rec' : CpmRec)
    (h : dlookup ref (top.foldl (convertHeapStep ps durations) heap) = some rec') :
    ∃ rec, dlookup ref heap = some rec ∧ offsetsEq rec' rec := by
  induction top generalizing heap with
  | nil => exact ⟨rec', h, ⟨rfl, rfl, rfl, rfl, rfl, rfl⟩⟩
  | cons p t ih =>
    rw [List.foldl_cons] at h
    obtain ⟨rec1, h1, heq⟩ := ih _ h
    rcases convertHeapStep_lookup ps durations heap p ref with hc | ⟨_, data, hdata, hval⟩
    · exact ⟨rec1, hc ▸ h1, heq⟩
    · rw [hval] at h1
      injection h1 with h1
      subst h1
      exact ⟨data, hdata, offsetsEq_trans heq (enrichRec_offsetsEq _ _ _)⟩

theorem heap_fold_datesSet_stable (ps : Int) (durations : Int → Int)
    (t : List (Int × Nat)) (heap : List (Nat × CpmRec)) (ref : Nat)
    (h : ∃ rec, dlookup ref heap = some rec ∧ datesSet rec) :
    ∃ rec', dlookup ref (t.foldl (convertHeapStep ps durations) heap) = some rec' ∧
      datesSet rec' := by
  induction t generalizing heap with
  | nil => exact h
  | cons p t2 ih =>
    rw [List.foldl_cons]
    refine ih _ ?_
    obtain ⟨rec, hrec, hds⟩ := h
    rcases convertHeapStep_lookup ps durations heap p ref with hc | ⟨_, data, _, hval⟩
    · exact ⟨rec, hc.trans hrec, hds⟩
    · exact ⟨_, hval, enrichRec_datesSet _ _ _⟩

theorem heap_fold_isSome (ps : Int) (durations : Int → Int)
    (t : List (Int × Nat)) (heap : List (Nat × CpmRec)) (ref : Nat)
    (h : (dlookup ref heap).isSome = true) :
    (dlookup ref (t.foldl (convertHeapStep ps durations) heap)).isSome = true := by
  induction t generalizing heap with
  | nil => exact h
  | cons p t2 ih =>
    rw [List.foldl_cons]
    refine ih _ ?_
    rcases convertHeapStep_lookup ps durations heap p ref with hc | ⟨_, _, _, hval⟩
    · rw [hc]
      exact h
    · rw [hval]
      rfl

theorem heap_fold_datesSet (ps : Int) (durations : Int → Int)
    (top : List (Int × Nat)) (heap : List (Nat × CpmRec)) (p : Int × Nat)
    (hp : p ∈ top) (h : (dlookup p.2 heap).isSome = true) :
    ∃ rec', dlookup p.2 (top.foldl (convertHeapStep ps durations) heap) = some rec' ∧
      datesSet rec' := by
  induction top generalizing heap with
  | nil => cases hp
  | cons q t ih =>
    rw [List.foldl_cons]
    rcases List.mem_cons.1 hp with hq | hq
    · -- this entry enriches the record now; dates stay set afterwards
      subst hq
      refine heap_fold_datesSet_stable ps durations t _ p.2 ?_
      obtain ⟨data, hdata⟩ := Option.isSome_iff_exists.1 h
      unfold convertHeapStep
      rw [hdata]
      exact ⟨_, dlookup_dictSet_self _ _ _, enrichRec_datesSet _ _ _⟩
    · refine ih _ hq ?_
      rcases convertHeapStep_lookup ps durations heap q p.2 with hc | ⟨_, _, _, hval⟩
      · rw [hc]
        exact h
      · rw [hval]
        rfl

/-- **C9** (amended): the engine's other operations return fresh
values, but `convert_offsets_to_dates` only shallow-copies: it returns
the same top-level mapping (same keys bound to the same record
references), and mutates the shared per-activity records in place —
every record reachable after the call is the caller's original record
with the calendar-date and planned-duration fields filled in and the
CPM offset fields unchanged.  The caller's top-level map is therefore
unchanged while its nested records are modified. -/
theorem c9_convert_is_shallow_copy :
    ∀ (top : List (Int × Nat)) (heap : List (Nat × CpmRec)) (anchor : Int)
      (durations : Int → Int),
    (convert_offsets_to_dates_heap top heap anchor durations).1 = top ∧
    (∀ ref rec',
      dlookup ref (convert_offsets_to_dates_heap top heap anchor durations).2 =
        some rec' →
      ∃ rec, dlookup ref heap = some rec ∧ offsetsEq rec' rec) ∧
    (∀ p ∈ top, (dlookup p.2 heap).isSome = true →
      ∃ rec', dlookup p.2
          (convert_offsets_to_dates_heap top heap anchor durations).2 =
        some rec' ∧ datesSet rec') := by
  intro top heap anchor durations
  refine ⟨rfl, ?_, ?_⟩
  · intro ref rec' h
    exact heap_fold_offsets _ durations top heap ref rec' h
  · intro p hp h
    exact heap_fold_datesSet _ durations top heap p hp h

/-- Witness for C9's amended statement: the aliasing fixture. -/
theorem c9_witness :
    (0 : Int) < 1 ∧ ((7, 0) : Int × Nat) ∈ topAlias ∧
    (dlookup 0 heapAlias).isSome = true ∧
    (∃ rec', dlookup 0
        (convert_offsets_to_dates_heap topAlias heapAlias 2 (fun _ => 5)).2 =
      some rec' ∧ datesSet rec') :=
  ⟨by decide, by decide, by decide,
    (c9_convert_is_shallow_copy topAlias heapAlias 2 (fun _ => 5)).2.2 (7, 0)
      (by decide) (by decide)⟩

/-! ## Chains, walks and cycles -/

theorem chainB_nil (G : DiGraph) : chainB G [] = true := rfl

theorem chainB_singleton (G : DiGraph) (a : Int) : chainB G [a] = true := rfl

theorem chainB_cons_cons (G : DiGraph) (a b : Int) (t : List Int) :
    chainB G (a :: b :: t) = (isEdgeOf G a b && chainB G (b :: t)) := rfl

theorem chainB_split (G : DiGraph) (x : Int) : ∀ (l1 l2 : List Int),
    chainB G (l1 ++ x :: l2) = true ↔
    (chainB G (l1 ++ [x]) = true ∧ chainB G (x :: l2) = true) := by
  intro l1
  induction l1 with
  | nil =>
    intro l2
    simp [chainB_singleton]
  | cons a t ih =>
    intro l2
    cases t with
    | nil =>
      simp only [List.cons_append, List.nil_append, chainB_cons_cons,
        chainB_singleton, Bool.and_eq_true, Bool.and_true]
    | cons b t' =>
      simp only [List.cons_append, chainB_cons_cons, Bool.and_eq_true]
      have ihx := ih l2
      simp only [List.cons_append] at ihx
      rw [ihx]
      tauto

theorem chainB_splice (G : DiGraph) (a : Int) (l1 l2 l3 : List Int)
    (h : chainB G (l1 ++ a :: (l2 ++ a :: l3)) = true) :
    chainB G (l1 ++ a :: l3) = true := by
  have h1 := (chainB_split G a l1 (l2 ++ a :: l3)).1 h
  have h12 : chainB G ((a :: l2) ++ a :: l3) = true := by
    simpa using h1.2
  have h2 := (chainB_split G a (a :: l2) l3).1 h12
  exact (chainB_split G a l1 l3).2 ⟨h1.1, h2.2⟩

theorem not_nodup_split {l : List Int} (h : ¬ l.Nodup) :
    ∃ a l1 l2 l3, l = l1 ++ a :: (l2 ++ a :: l3) := by
  induction l with
  | nil => exact absurd List.nodup_nil h
  | cons x xs ih =>
    by_cases hx : x ∈ xs
    · obtain ⟨s, t, hst⟩ := List.append_of_mem hx
      exact ⟨x, [], s, t, by simp [hst]⟩
    · have hxs : ¬ xs.Nodup := fun hc => h (List.nodup_cons.2 ⟨hx, hc⟩)
      obtain ⟨a, l1, l2, l3, hsp⟩ := ih hxs
      exact ⟨a, x :: l1, l2, l3, by simp [hsp]⟩

theorem transGen_walk (G : DiGraph) {a b : Int}
    (h : Relation.TransGen (EdgeP G) a b) :
    ∃ w, chainB G (a :: w ++ [b]) = true := by
  induction h with
  | single he =>
    refine ⟨[], ?_⟩
    simpa [chainB_cons_cons, chainB_singleton, EdgeP] using he
  | tail _ht he ih =>
    obtain ⟨w, hw⟩ := ih
    rename_i bmid c
    refine ⟨w ++ [bmid], ?_⟩
    have hsh : a :: (w ++ [bmid]) ++ [c] = (a :: w) ++ bmid :: [c] := by simp
    rw [hsh]
    refine (chainB_split G bmid (a :: w) [c]).2 ⟨?_, ?_⟩
    · exact hw
    · simpa [chainB_cons_cons, chainB_singleton, EdgeP] using he

theorem walk_transGen (G : DiGraph) : ∀ (w : List Int) (a b : Int),
    chainB G (a :: w ++ [b]) = true → Relation.TransGen (EdgeP G) a b := by
  intro w
  induction w with
  | nil =>
    intro a b h
    have h2 : (isEdgeOf G a b && chainB G [b]) = true := h
    rw [chainB_singleton, Bool.and_true] at h2
    exact Relation.TransGen.single h2
  | cons y t ih =>
    intro a b h
    simp only [List.cons_append, chainB_cons_cons, Bool.and_eq_true] at h
    have h2 : chainB G (y :: t ++ [b]) = true := by
      simpa using h.2
    exact Relation.TransGen.head h.1 (ih y b h2)

theorem cycle_of_closed_walk (G : DiGraph) :
    ∀ (k : Nat) (w : List Int) (n : Int), w.length ≤ k →
    chainB G (n :: w ++ [n]) = true →
    ∃ l, IsCycleList G l ∧ l.Nodup ∧ n ∈ l ∧ (∀ x ∈ l, x ∈ n :: w) := by
  intro k
  induction k with
  | zero =>
    intro w n hlen hch
    have hw : w = [] := List.length_eq_zero.1 (Nat.le_zero.1 hlen)
    subst hw
    refine ⟨[n], ⟨by simp, by simpa using hch⟩, by simp, by simp, by simp⟩
  | succ k ih =>
    intro w n hlen hch
    by_cases hnd : (n :: w).Nodup
    · exact ⟨n :: w, ⟨by simp, by simpa using hch⟩, hnd,
        List.mem_cons_self n w, fun x hx => hx⟩
    · obtain ⟨a, l1, l2, l3, hsp⟩ := not_nodup_split hnd
      cases l1 with
      | nil =>
        have hna : n = a := by
          simpa using congrArg List.head? hsp
        have hw : w = l2 ++ a :: l3 := by
          simpa using congrArg List.tail hsp
        have hch2 : chainB G (n :: l3 ++ [n]) = true := by
          have horig : n :: w ++ [n] = [] ++ a :: (l2 ++ a :: (l3 ++ [n])) := by
            subst hna
            simp [hw]
          rw [horig] at hch
          have := chainB_splice G a [] l2 (l3 ++ [n]) hch
          subst hna
          simpa using this
        have hlen2 : l3.length ≤ k := by
          have := congrArg List.length hw
          simp [List.length_append] at this
          omega
        obtain ⟨l, hc1, hc2, hc3, hc4⟩ := ih l3 n hlen2 hch2
        refine ⟨l, hc1, hc2, hc3, ?_⟩
        intro x hx
        rcases List.mem_cons.1 (hc4 x hx) with h1 | h1
        · exact h1 ▸ List.mem_cons_self n w
        · refine List.mem_cons_of_mem n ?_
          rw [hw]
          exact List.mem_append_right l2 (List.mem_cons_of_mem a h1)
      | cons nh t =>
        have hnh : nh = n := by
          simpa using (congrArg List.head? hsp).symm
        subst hnh
        have hw : w = t ++ a :: (l2 ++ a :: l3) := by
          simpa using congrArg List.tail hsp
        have hch2 : chainB G (nh :: (t ++ a :: l3) ++ [nh]) = true := by
          have horig : nh :: w ++ [nh] =
              (nh :: t) ++ a :: (l2 ++ a :: (l3 ++ [nh])) := by
            simp [hw]
          rw [horig] at hch
          have := chainB_splice G a (nh :: t) l2 (l3 ++ [nh]) hch
          simpa using this
        have hlen2 : (t ++ a :: l3).length ≤ k := by
          have := congrArg List.length hw
          simp [List.length_append] at this
          simp [List.length_append]
          omega
        obtain ⟨l, hc1, hc2, hc3, hc4⟩ := ih (t ++ a :: l3) nh hlen2 hch2
        refine ⟨l, hc1, hc2, hc3, ?_⟩
        intro x hx
        rcases List.mem_cons.1 (hc4 x hx) with h1 | h1
        · exact h1 ▸ List.mem_cons_self nh w
        · refine List.mem_cons_of_mem nh ?_
          rw [hw]
          rcases List.mem_append.1 h1 with h2 | h2
          · exact List.mem_append_left _ h2
          · rcases List.mem_cons.1 h2 with h3 | h3
            · exact List.mem_append_right _ (h3 ▸ List.mem_cons_self a _)
            · exact List.mem_append_right _ (List.mem_cons_of_mem a
                (List.mem_append_right l2 (List.mem_cons_of_mem a h3)))

theorem isCycleList_rotate_one (G : DiGraph) (l : List Int)
    (h : IsCycleList G l) : IsCycleList G (l.rotate 1) := by
  obtain ⟨hne, hch⟩ := h
  cases l with
  | nil => exact absurd rfl hne
  | cons x xs =>
    rw [List.rotate_cons_succ, List.rotate_zero]
    cases xs with
    | nil => exact ⟨by simp, by simpa using hch⟩
    | cons y ys =>
      refine ⟨by simp, ?_⟩
      have hch2 : chainB G (x :: y :: (ys ++ [x])) = true := by
        simpa using hch
      rw [chainB_cons_cons, Bool.and_eq_true] at hch2
      have hshape : ((y :: ys) ++ [x]) ++ ((y :: ys) ++ [x]).take 1 =
          (y :: ys) ++ x :: [y] := by simp
      rw [hshape]
      refine (chainB_split G x (y :: ys) [y]).2 ⟨by simpa using hch2.2, ?_⟩
      rw [chainB_cons_cons, chainB_singleton, Bool.and_true]
      exact hch2.1

theorem isCycleList_rotate (G : DiGraph) (l : List Int) (k : Nat)
    (h : IsCycleList G l) : IsCycleList G (l.rotate k) := by
  induction k generalizing l with
  | zero => simpa [List.rotate_zero] using h
  | succ k ih =>
    have : l.rotate (k + 1) = (l.rotate 1).rotate k := by
      rw [List.rotate_rotate, Nat.add_comm]
    rw [this]
    exact ih _ (isCycleList_rotate_one G l h)

theorem chain_sources (G : DiGraph) : ∀ (v : List Int), chainB G v = true →
    ∀ x ∈ v.dropLast, ∃ y, EdgeP G x y := by
  intro v
  induction v with
  | nil => intro _ x hx; cases hx
  | cons a t ih =>
    intro hch x hx
    cases t with
    | nil => cases hx
    | cons b t2 =>
      rw [chainB_cons_cons, Bool.and_eq_true] at hch
      have hdl : (a :: b :: t2).dropLast = a :: (b :: t2).dropLast := rfl
      rw [hdl] at hx
      rcases List.mem_cons.1 hx with h1 | h1
      · exact ⟨b, h1 ▸ hch.1⟩
      · exact ih hch.2 x h1

theorem cycle_mem_nodes (G : DiGraph) (hwf : Wellformed G) (l : List Int)
    (h : IsCycleList G l) : ∀ x ∈ l, x ∈ G.nodes := by
  obtain ⟨hne, hch⟩ := h
  intro x hx
  cases l with
  | nil => cases hx
  | cons h0 t =>
    have hdl : ((h0 :: t) ++ [h0]).dropLast = h0 :: t := List.dropLast_concat
    have hsrc : ∃ y, EdgeP G x y := by
      refine chain_sources G ((h0 :: t) ++ [h0]) (by simpa using hch) x ?_
      rw [hdl]
      exact hx
    obtain ⟨y, hy⟩ := hsrc
    rw [EdgeP, isEdgeOf, List.any_eq_true] at hy
    obtain ⟨e, he, hpe⟩ := hy
    rw [Bool.and_eq_true] at hpe
    have hex : e.src = x := of_decide_eq_true hpe.1
    exact hex ▸ (hwf e he).1

theorem exists_min_mem : ∀ (l : List Int), l ≠ [] → ∃ m ∈ l, ∀ y ∈ l, m ≤ y := by
  intro l
  induction l with
  | nil => intro h; exact absurd rfl h
  | cons x xs ih =>
    intro _
    cases hxs : xs with
    | nil => exact ⟨x, by simp, by simp⟩
    | cons b t =>
      obtain ⟨m, hm, hmin⟩ := ih (by simp [hxs])
      rw [← hxs]
      by_cases hc : m ≤ x
      · refine ⟨m, List.mem_cons_of_mem x hm, ?_⟩
        intro y hy
        rcases List.mem_cons.1 hy with h1 | h1
        · exact h1 ▸ hc
        · exact hmin y h1
      · refine ⟨x, List.mem_cons_self x xs, ?_⟩
        intro y hy
        rcases List.mem_cons.1 hy with h1 | h1
        · exact h1 ▸ le_refl x
        · exact le_trans (le_of_not_le hc) (hmin y h1)

theorem rotate_head_min (l : List Int) (hne : l ≠ []) (m : Int) (hm : m ∈ l) :
    ∃ xs, l.rotate (l.indexOf m) = m :: xs := by
  have hk : l.indexOf m < l.length := List.indexOf_lt_length.2 hm
  have hlen : (l.rotate (l.indexOf m)).length = l.length := List.length_rotate l _
  cases hr : l.rotate (l.indexOf m) with
  | nil =>
    rw [hr] at hlen
    have : l.length = 0 := hlen.symm
    exact absurd (List.length_eq_zero.1 this) hne
  | cons x xs =>
    refine ⟨xs, ?_⟩
    have h0 : (l.rotate (l.indexOf m)).get ⟨0, by rw [hlen]; omega⟩ =
        l.get ⟨(0 + l.indexOf m) % l.length, by
          exact Nat.mod_lt _ (by omega)⟩ := List.get_rotate l _ _
    have hmod : (0 + l.indexOf m) % l.length = l.indexOf m := by
      rw [Nat.zero_add]
      exact Nat.mod_eq_of_lt hk
    have hget : l.get ⟨(0 + l.indexOf m) % l.length, by exact Nat.mod_lt _ (by omega)⟩ = m := by
      have := List.indexOf_get hk
      simp only [hmod]
      convert this using 2
    have hx : x = m := by
      have h00 : (l.rotate (l.indexOf m)).get ⟨0, by rw [hlen]; omega⟩ = x := by
        simp [hr]
      rw [h00] at h0
      rw [h0, hget]
    rw [hx]

theorem simple_cycles_sound (G : DiGraph) (c : List Int)
    (hc : c ∈ simple_cycles G) : IsCycleList G c ∧ c.Nodup := by
  have h := List.mem_filter.1 hc
  have hb := h.2
  rw [Bool.and_eq_true, Bool.and_eq_true] at hb
  exact ⟨of_decide_eq_true hb.1.1, of_decide_eq_true hb.1.2⟩

theorem simple_cycles_complete (G : DiGraph) (hwf : Wellformed G)
    (l : List Int) (hcl : IsCycleList G l) (hnd : l.Nodup) (n : Int)
    (hn : n ∈ l) : ∃ c ∈ simple_cycles G, n ∈ c := by
  have hne : l ≠ [] := hcl.1
  obtain ⟨m, hm, hmin⟩ := exists_min_mem l hne
  set r := l.rotate (l.indexOf m) with hr
  obtain ⟨xs, hrxs⟩ := rotate_head_min l hne m hm
  have hrcyc : IsCycleList G r := isCycleList_rotate G l _ hcl
  have hrnd : r.Nodup := List.nodup_rotate.2 hnd
  have hrsub : ∀ x ∈ r, x ∈ G.nodes := by
    intro x hx
    exact cycle_mem_nodes G hwf l hcl x (List.mem_rotate.1 hx)
  have hmh : minHeadB r = true := by
    rw [hr, hrxs]
    simp only [minHeadB, decide_eq_true_eq]
    intro y hy
    have hyr : y ∈ r := by
      rw [hr, hrxs]
      exact List.mem_cons_of_mem m hy
    exact hmin y (List.mem_rotate.1 hyr)
  have hsubperm : r.Subperm G.nodes := List.Nodup.subperm hrnd hrsub
  obtain ⟨s, hsp, hss⟩ := hsubperm
  refine ⟨r, ?_, List.mem_rotate.2 hn⟩
  rw [simple_cycles, List.mem_filter]
  constructor
  · rw [List.mem_flatMap]
    exact ⟨s, List.mem_sublists.2 hss, List.mem_permutations'.2 hsp.symm⟩
  · rw [Bool.and_eq_true, Bool.and_eq_true]
    exact ⟨⟨decide_eq_true hrcyc, decide_eq_true hrnd⟩, hmh⟩

theorem hasCycleB_iff (G : DiGraph) (hwf : Wellformed G) :
    hasCycleB G = true ↔ HasCycle G := by
  constructor
  · intro h
    rw [hasCycleB, Bool.not_eq_true'] at h
    cases hsc : simple_cycles G with
    | nil => rw [hsc] at h; cases h
    | cons c cs =>
      have hc := simple_cycles_sound G c (by rw [hsc]; exact List.mem_cons_self c cs)
      obtain ⟨⟨hne, hch⟩, _⟩ := hc
      cases c with
      | nil => exact absurd rfl hne
      | cons x t =>
        refine ⟨x, walk_transGen G t x x ?_⟩
        simpa using hch
  · intro h
    obtain ⟨n, htg⟩ := h
    obtain ⟨w, hw⟩ := transGen_walk G htg
    obtain ⟨l, hc1, hc2, hc3, _⟩ :=
      cycle_of_closed_walk G w.length w n (le_refl _) hw
    obtain ⟨c, hcm, _⟩ := simple_cycles_complete G hwf l hc1 hc2 n hc3
    rw [hasCycleB, Bool.not_eq_true']
    cases hsc : simple_cycles G with
    | nil => rw [hsc] at hcm; cases hcm
    | cons a b => rfl

/-- **C6**: CPM error semantics — `run_cpm` fails with the
cyclic-graph `ValueError` if and only if the input network is not
acyclic (some node reaches itself through at least one edge), and for
an acyclic network with no nodes it returns an empty result map rather
than an error. -/
theorem c6_run_cpm_error_semantics :
    ∀ (durations : Int → Int) (G : DiGraph) (order : List Int),
    Wellformed G →
    ((∃ msg, run_cpm durations G order = .error msg) ↔ HasCycle G) ∧
    (G.nodes = [] → run_cpm durations G order = .ok []) := by
  intro durations G order hwf
  constructor
  · constructor
    · rintro ⟨msg, hmsg⟩
      by_cases hc : hasCycleB G = true
      · exact (hasCycleB_iff G hwf).1 hc
      · exfalso
        rw [Bool.not_eq_true] at hc
        by_cases he : G.nodes.isEmpty
        · simp only [run_cpm, hc, Bool.false_eq_true, if_false, he, if_true] at hmsg
          exact Except.noConfusion hmsg
        · simp only [run_cpm, hc, Bool.false_eq_true, if_false,
            Bool.not_eq_true] at he hmsg
          rw [he] at hmsg
          simp only [Bool.false_eq_true, if_false] at hmsg
          exact Except.noConfusion hmsg
    · intro h
      have hc := (hasCycleB_iff G hwf).2 h
      exact ⟨"Graph contains cycles. CPM cannot be calculated.",
        by rw [run_cpm, if_pos hc]⟩
  · intro hnodes
    have hsc : simple_cycles G = [] := by
      rw [simple_cycles, hnodes]
      rfl
    have hcf : hasCycleB G = false := by
      rw [hasCycleB, hsc]
      rfl
    have hemp : G.nodes.isEmpty = true := by
      rw [hnodes]
      rfl
    simp [run_cpm, hcf, hemp]

/-- Witness for C6: a self-loop graph is rejected with the cycle
error, and the empty network yields the empty result map. -/
theorem c6_witness :
    Wellformed GLoop ∧
    ((∃ msg, run_cpm dursAB GLoop [1] = .error msg) ↔ HasCycle GLoop) ∧
    run_cpm dursAB ⟨[], []⟩ [] = .ok [] :=
  ⟨by decide,
    (c6_run_cpm_error_semantics dursAB GLoop [1] (by decide)).1,
    (c6_run_cpm_error_semantics dursAB ⟨[], []⟩ [] (by decide)).2 rfl⟩

/-! ## Substring lemmas -/

theorem toList_append (s t : String) : (s ++ t).toList = s.toList ++ t.toList := by
  cases s with
  | mk a =>
    cases t with
    | mk b => rfl

theorem leadsChars_append {pat u : List Char} (v : List Char)
    (h : leadsChars pat u = true) : leadsChars pat (u ++ v) = true := by
  induction pat generalizing u with
  | nil => rfl
  | cons p ps ih =>
    cases u with
    | nil => cases h
    | cons c cs =>
      rw [List.cons_append]
      rw [leadsChars, Bool.and_eq_true] at h ⊢
      exact ⟨h.1, ih h.2⟩

theorem isSubChars_append_left {pat u : List Char} (v : List Char)
    (h : isSubChars pat u = true) : isSubChars pat (u ++ v) = true := by
  induction u with
  | nil =>
    rw [isSubChars] at h
    have hp : pat = [] := of_decide_eq_true h
    subst hp
    cases v with
    | nil => rfl
    | cons c cs =>
      rw [List.nil_append, isSubChars, Bool.or_eq_true]
      exact Or.inl rfl
  | cons c cs ih =>
    rw [isSubChars, Bool.or_eq_true] at h
    rw [List.cons_append, isSubChars, Bool.or_eq_true]
    rcases h with h | h
    · exact Or.inl (by
        have : (c :: cs) ++ v = c :: (cs ++ v) := rfl
        rw [← this]
        exact leadsChars_append v h)
    · exact Or.inr (ih h)

theorem isSubChars_append_right {pat : List Char} (u : List Char)
    {v : List Char} (h : isSubChars pat v = true) :
    isSubChars pat (u ++ v) = true := by
  induction u with
  | nil => exact h
  | cons c cs ih =>
    rw [List.cons_append, isSubChars, Bool.or_eq_true]
    exact Or.inr ih

theorem containsSub_append_left {pat s : String} (t : String)
    (h : containsSub pat s = true) : containsSub pat (s ++ t) = true := by
  rw [containsSub, toList_append]
  exact isSubChars_append_left _ h

theorem containsSub_append_right {pat t : String} (s : String)
    (h : containsSub pat t = true) : containsSub pat (s ++ t) = true := by
  rw [containsSub, toList_append]
  exact isSubChars_append_right _ h

/-! ## The built graph is wellformed -/

theorem mem_addNode_nodes {G : DiGraph} {x : Int} (n : Int)
    (h : x ∈ G.nodes) : x ∈ (addNode G n).nodes := by
  unfold addNode
  split_ifs
  · exact h
  · exact List.mem_append_left _ h

theorem self_mem_addNode (G : DiGraph) (n : Int) : n ∈ (addNode G n).nodes := by
  unfold addNode
  split_ifs with h
  · exact h
  · exact List.mem_append_right _ (List.mem_cons_self n [])

theorem addNode_edges (G : DiGraph) (n : Int) : (addNode G n).edges = G.edges := by
  unfold addNode
  split_ifs <;> rfl

theorem wf_addNode {G : DiGraph} (n : Int) (h : Wellformed G) :
    Wellformed (addNode G n) := by
  intro e he
  rw [addNode_edges] at he
  exact ⟨mem_addNode_nodes n (h e he).1, mem_addNode_nodes n (h e he).2⟩

theorem wf_addEdge {G : DiGraph} (src dst : Int) (ty : DepType) (lag : Int)
    (h : Wellformed G) : Wellformed (addEdge G src dst ty lag) := by
  have h1 : Wellformed (addNode (addNode G src) dst) := wf_addNode _ (wf_addNode _ h)
  have hsrc : src ∈ (addNode (addNode G src) dst).nodes :=
    mem_addNode_nodes _ (self_mem_addNode G src)
  have hdst : dst ∈ (addNode (addNode G src) dst).nodes :=
    self_mem_addNode (addNode G src) dst
  rw [addEdge]
  unfold edgeUpd
  split_ifs
  · intro e he
    simp only [List.mem_map] at he
    obtain ⟨e0, he0, heq⟩ := he
    by_cases hc : e0.src = src ∧ e0.dst = dst
    · rw [if_pos hc] at heq
      rw [← heq]
      exact ⟨hsrc, hdst⟩
    · rw [if_neg hc] at heq
      rw [← heq]
      exact h1 e0 he0
  · intro e he
    rcases List.mem_append.1 he with h2 | h2
    · exact h1 e h2
    · rcases List.mem_cons.1 h2 with h3 | h3
      · rw [h3]
        exact ⟨hsrc, hdst⟩
      · cases h3

theorem processDeps_wf (act : Int) (valid : List Int) :
    ∀ (deps : List ParsedDep) (G : DiGraph), Wellformed G →
    Wellformed (processDeps act valid G deps).2 := by
  intro deps
  induction deps with
  | nil => intro G h; exact h
  | cons d rest ih =>
    intro G h
    unfold processDeps
    split_ifs with h1 h2
    · exact h
    · exact ih _ (wf_addEdge _ _ _ _ h)
    · exact h

theorem pass2Row_wf (valid : List Int) (st : DiGraph × List (StatusKey × String))
    (row : ActivityRow) (st' : DiGraph × List (StatusKey × String))
    (h : Wellformed st.1) (hr : pass2Row valid st row = .ok st') :
    Wellformed st'.1 := by
  cases hpy : pyInt row.activity_id with
  | error e =>
    cases e with
    | valueError =>
      simp only [pass2Row, hpy, Except.ok.injEq] at hr
      rw [← hr]
      exact h
    | typeError =>
      simp only [pass2Row, hpy] at hr
      exact Except.noConfusion hr
  | ok act_id =>
    cases hps : row.predecessor_id with
    | none =>
      simp only [pass2Row, hpy, hps, Except.ok.injEq] at hr
      rw [← hr]
      exact h
    | some ps =>
      by_cases htrim : pyStrip ps = ""
      · simp only [pass2Row, hpy, hps, htrim, if_true, Except.ok.injEq] at hr
        rw [← hr]
        exact h
      · cases hpar : parse_dependency_string ps with
        | error e =>
          simp only [pass2Row, hpy, hps, htrim, if_false, hpar,
            Except.ok.injEq] at hr
          rw [← hr]
          exact h
        | ok deps =>
          simp only [pass2Row, hpy, hps, htrim, if_false, hpar,
            Except.ok.injEq] at hr
          rw [← hr]
          exact processDeps_wf act_id valid deps st.1 h

theorem foldlM_pass2_wf (valid : List Int) :
    ∀ (rows : List ActivityRow) (st : DiGraph × List (StatusKey × String))
      (G2 : DiGraph) (sts : List (StatusKey × String)),
    Wellformed st.1 → rows.foldlM (pass2Row valid) st = .ok (G2, sts) →
    Wellformed G2 := by
  intro rows
  induction rows with
  | nil =>
    intro st G2 sts h hm
    injection hm with hm
    rw [hm] at h
    exact h
  | cons r t ih =>
    intro st G2 sts h hm
    rw [List.foldlM_cons] at hm
    cases hrow : pass2Row valid st r with
    | error e =>
      rw [hrow] at hm
      cases hm
    | ok st' =>
      rw [hrow] at hm
      exact ih st' G2 sts (pass2Row_wf valid st r st' h hrow) hm

theorem pass1_wf (rows : List ActivityRow) : Wellformed (pass1 rows) := by
  have hgen : ∀ (rs : List ActivityRow) (G : DiGraph), Wellformed G →
      Wellformed (rs.foldl (fun G row =>
        match pyInt row.activity_id with
        | .ok n => addNode G n
        | .error _ => G) G) := by
    intro rs
    induction rs with
    | nil => intro G h; exact h
    | cons r t ih =>
      intro G h
      rw [List.foldl_cons]
      cases hpy : pyInt r.activity_id with
      | ok n => exact ih _ (wf_addNode n h)
      | error e => exact ih _ h
  refine hgen rows ⟨[], []⟩ ?_
  intro e he
  cases he

theorem build_ok_shape (rows : List ActivityRow) (G : DiGraph)
    (statuses : List (StatusKey × String))
    (h : build_dag_and_validate rows = .ok (G, statuses)) :
    Wellformed G ∧
    ∃ sts0, statuses = (simple_cycles G).foldl applyCycle sts0 := by
  unfold build_dag_and_validate at h
  cases hm : rows.foldlM (pass2Row (pass1 rows).nodes) (pass1 rows, []) with
  | error e =>
    rw [hm] at h
    cases h
  | ok sg =>
    rw [hm] at h
    injection h with h
    injection h with h1 h2
    constructor
    · rw [← h1]
      exact foldlM_pass2_wf (pass1 rows).nodes rows (pass1 rows, []) sg.1 sg.2
        (pass1_wf rows) (by rw [hm])
    · refine ⟨sg.2, ?_⟩
      rw [← h2, ← h1]

/-! ## Cycle-pass status marking -/

theorem cycleMark_contains_self (cs : String) (st : List (StatusKey × String))
    (m : Int) :
    ∃ s, dlookup (StatusKey.id m) (cycleMark cs st m) = some s ∧
      containsSub "Cycle detected" s = true := by
  unfold cycleMark
  split_ifs with h
  · exact ⟨_, dlookup_dictSet_self _ _ _,
      containsSub_append_left _ (containsSub_append_left _ (by decide))⟩
  · exact ⟨_, dlookup_dictSet_self _ _ _, containsSub_append_right _ (by decide)⟩

theorem cycleMark_contains_preserve (cs : String) (st : List (StatusKey × String))
    (m node : Int)
    (h : ∃ s, dlookup (StatusKey.id m) st = some s ∧
      containsSub "Cycle detected" s = true) :
    ∃ s, dlookup (StatusKey.id m) (cycleMark cs st node) = some s ∧
      containsSub "Cycle detected" s = true := by
  obtain ⟨s, hs, hc⟩ := h
  by_cases hnm : node = m
  · subst hnm
    have hsOK : s ≠ "OK" := by
      intro he
      rw [he] at hc
      exact absurd hc (by decide)
    unfold cycleMark
    rw [hs]
    simp only [Option.getD_some]
    rw [if_neg hsOK]
    exact ⟨_, dlookup_dictSet_self _ _ _, containsSub_append_left _ hc⟩
  · have hkey : StatusKey.id m ≠ StatusKey.id node := by
      intro he
      injection he with he
      exact hnm he.symm
    unfold cycleMark
    split_ifs
    · exact ⟨s, by rw [dlookup_dictSet_ne _ _ _ _ hkey]; exact hs, hc⟩
    · exact ⟨s, by rw [dlookup_dictSet_ne _ _ _ _ hkey]; exact hs, hc⟩

theorem cycleMark_fold_contains (cs : String) (m : Int) :
    ∀ (l : List Int) (st : List (StatusKey × String)),
    (m ∈ l ∨ ∃ s, dlookup (StatusKey.id m) st = some s ∧
      containsSub "Cycle detected" s = true) →
    ∃ s, dlookup (StatusKey.id m) (l.foldl (cycleMark cs) st) = some s ∧
      containsSub "Cycle detected" s = true := by
  intro l
  induction l with
  | nil =>
    intro st h
    rcases h with h | h
    · cases h
    · exact h
  | cons a t ih =>
    intro st h
    rw [List.foldl_cons]
    rcases h with h | h
    · rcases List.mem_cons.1 h with h1 | h1
      · exact ih _ (Or.inr (h1 ▸ cycleMark_contains_self cs st m))
      · exact ih _ (Or.inl h1)
    · exact ih _ (Or.inr (cycleMark_contains_preserve cs st m a h))

theorem applyCycle_contains (cycle : List Int) (st : List (StatusKey × String))
    (m : Int)
    (h : m ∈ cycle ∨ ∃ s, dlookup (StatusKey.id m) st = some s ∧
      containsSub "Cycle detected" s = true) :
    ∃ s, dlookup (StatusKey.id m) (applyCycle st cycle) = some s ∧
      containsSub "Cycle detected" s = true := by
  exact cycleMark_fold_contains _ m cycle st h

theorem cycles_fold_contains (m : Int) :
    ∀ (cycles : List (List Int)) (st : List (StatusKey × String)),
    ((∃ c ∈ cycles, m ∈ c) ∨ ∃ s, dlookup (StatusKey.id m) st = some s ∧
      containsSub "Cycle detected" s = true) →
    ∃ s, dlookup (StatusKey.id m) (cycles.foldl applyCycle st) = some s ∧
      containsSub "Cycle detected" s = true := by
  intro cycles
  induction cycles with
  | nil =>
    intro st h
    rcases h with ⟨c, hc, _⟩ | h
    · cases hc
    · exact h
  | cons c t ih =>
    intro st h
    rw [List.foldl_cons]
    rcases h with ⟨c2, hc2, hm2⟩ | h
    · rcases List.mem_cons.1 hc2 with h1 | h1
      · exact ih _ (Or.inr (applyCycle_contains c st m (Or.inl (h1 ▸ hm2))))
      · exact ih _ (Or.inl ⟨c2, h1, hm2⟩)
    · exact ih _ (Or.inr (applyCycle_contains c st m (Or.inr h)))

/-- **C8** (amended): after `build_dag_and_validate`, every node
participating in at least one simple cycle has a status containing
`"Cycle detected"`: when the node's status was `"OK"` it is replaced by
`"ERROR: Cycle detected (path)"` with the path rendered as
`id->id->...->id`, but when the node already had a non-`"OK"` status
the bare string `"; Cycle detected"` is appended *without* the path.
For the 3-node cycle 1->2, 2->3, 3->1 all three statuses contain
`Cycle`; for an acyclic graph all statuses are `"OK"`. -/
theorem c8_cycle_statuses :
    (∀ (rows : List ActivityRow) (G : DiGraph)
        (statuses : List (StatusKey × String)) (l : List Int) (n : Int),
      build_dag_and_validate rows = .ok (G, statuses) →
      IsCycleList G l → l.Nodup → n ∈ l →
      ∃ s, dlookup (StatusKey.id n) statuses = some s ∧
        containsSub "Cycle detected" s = true) ∧
    ((build_dag_and_validate rowsCycle3).toOption.map Prod.snd =
      some stsC3) ∧
    ((build_dag_and_validate rowsAcyclic3).toOption.map Prod.snd =
      some [(StatusKey.id 1, "OK"), (StatusKey.id 2, "OK"),
            (StatusKey.id 3, "OK")]) ∧
    (∃ G statuses, build_dag_and_validate rowsSelfCycle = .ok (G, statuses) ∧
      dlookup (StatusKey.id 1) statuses =
        some ("ERROR: Self-dependency on 1" ++ "; Cycle detected") ∧
      dlookup (StatusKey.id 2) statuses =
        some ("ERROR: Cycle detected (" ++ "1->2" ++ ")")) := by
  refine ⟨?_, by decide, by decide, ?_⟩
  · intro rows G statuses l n hb hcl hnd hn
    obtain ⟨hwf, sts0, hshape⟩ := build_ok_shape rows G statuses hb
    obtain ⟨c, hc, hcm⟩ := simple_cycles_complete G hwf l hcl hnd n hn
    rw [hshape]
    exact cycles_fold_contains n (simple_cycles G) sts0 (Or.inl ⟨c, hc, hcm⟩)
  · exact ⟨⟨[1, 2], [⟨2, 1, DepType.FS, 0⟩, ⟨1, 2, DepType.FS, 0⟩]⟩,
      [(StatusKey.id 1, "ERROR: Self-dependency on 1; Cycle detected"),
       (StatusKey.id 2, "ERROR: Cycle detected (1->2)")],
      by decide, by decide, by decide⟩

/-- **C8** (counterexample): node 1 of the 1<->2 fixture participates
in the simple cycle `[1, 2]`, but because it already carried the
self-dependency error its final status is
`"ERROR: Self-dependency on 1; Cycle detected"` — the appended cycle
marker contains **no** rendered path (neither `1->2` nor `2->1`),
refuting the claim that the `Cycle(path)` status with the rendered path
is appended to an existing non-Ok status. -/
theorem c8_counterexample :
    ∃ G statuses, build_dag_and_validate rowsSelfCycle = .ok (G, statuses) ∧
      IsCycleList G [1, 2] ∧ ([1, 2] : List Int).Nodup ∧ (1 : Int) ∈ [1, 2] ∧
      dlookup (StatusKey.id 1) statuses =
        some "ERROR: Self-dependency on 1; Cycle detected" ∧
      containsSub "1->2" "ERROR: Self-dependency on 1; Cycle detected" = false ∧
      containsSub "2->1" "ERROR: Self-dependency on 1; Cycle detected" = false :=
  ⟨⟨[1, 2], [⟨2, 1, DepType.FS, 0⟩, ⟨1, 2, DepType.FS, 0⟩]⟩,
   [(StatusKey.id 1, "ERROR: Self-dependency on 1; Cycle detected"),
    (StatusKey.id 2, "ERROR: Cycle detected (1->2)")],
   by decide, by decide, by decide, by decide, by decide, by decide, by decide⟩

/-- Witness for C8's amended statement: the 3-cycle fixture. -/
theorem c8_witness :
    build_dag_and_validate rowsCycle3 = .ok (GC3, stsC3) ∧
    IsCycleList GC3 [1, 2, 3] ∧ ([1, 2, 3] : List Int).Nodup ∧
    (1 : Int) ∈ [1, 2, 3] ∧
    (∃ s, dlookup (StatusKey.id 1) stsC3 = some s ∧
      containsSub "Cycle detected" s = true) :=
  ⟨by decide, by decide, by decide, by decide,
    c8_cycle_statuses.1 rowsCycle3 GC3 stsC3 [1, 2, 3] 1 (by decide) (by decide)
      (by decide) (by decide)⟩
